import Mathlib

/-!
Verification of the pseudo_tv broadcast-grid generator and catalog validator.

This file gives a shallow embedding, in Lean 4, of the core of the
repository:

* `ShowSelector.check_criteria`, `ShowSelector.get_matching_shows`,
  `ShowSelector.curate_channel` and `ShowSelector.generate_schedules`
  (src/grid_generator.py);
* `ChannelMaker.generate_block` and the `ChannelMaker.set_blocks`
  placement loop (src/grid_generator.py);
* the catalog validator `validate_catalog` / `validate_channel` /
  `validate_block` / `validate_criterion`
  (src/data/prompts/scripts/catalog_validation.py).

Modelling conventions:

* Python numbers (int/float) are embedded as rationals `ℚ`; float
  rounding is not modelled (all checked tolerances are 1e-6, far above
  float64 rounding at the magnitudes involved).
* Python exceptions are modelled with `Option`/`Except`: a function that
  can raise returns `Option α` or `Except Unit α`, and `none` /
  `Except.error ()` means "the Python code raises here".
* `random.choice`, `random.shuffle` and `random.randint` are modelled by
  explicit oracle parameters (index streams / reordering functions), so
  theorems quantify over every possible random outcome.
-/

namespace PseudoTV

/-! ## Data model for the show selector (src/data_types.py) -/

/-- The `CategoryCriteria` enum of src/data_types.py. -/
inductive CategoryCriteria where
  | genre
  | type
  | language
  | duration
deriving DecidableEq, Repr

/-- A loosely typed Python scalar as it appears in criterion `values`
and in a show's property lists: a string, a number (int or float,
embedded as `ℚ`), or `None`. -/
inductive Val where
  | s (x : String)
  | n (q : ℚ)
  | null
deriving DecidableEq, Repr

/-- A content item (`Show` TypedDict): `properties` maps each category to
the show's list of property values; a category absent from the Python
dict is modelled as the empty list (mirroring
`show_properties.get(category, [])`). -/
structure ShowItem where
  name : String
  properties : CategoryCriteria → List Val

/-- A selection criterion (`Criteria` TypedDict).  A generated criterion
dict that lacks the `forbidden` key is modelled with `forbidden = false`,
mirroring `criteria.get('forbidden', False)`. -/
structure Criteria where
  category : CategoryCriteria
  values : List Val
  forbidden : Bool
deriving DecidableEq, Repr

/-- Python truthiness of a scalar, as used by
`any(props.intersection(set(values)))`: `None`, `""` and `0` are falsy. -/
def truthy : Val → Bool
  | .null => false
  | .s x => x ≠ ""
  | .n q => q ≠ 0

/-- Extract the numbers of a list of scalars; `none` if some element is
not a number.  Used to model Python `min`/`max` over mixed data: when a
list that should be numeric contains `None` or (together with numbers) a
string, the Python comparison raises, which the embedding reports as
`none`. -/
def nums? : List Val → Option (List ℚ)
  | [] => some []
  | .n q :: rest => (nums? rest).map fun qs => q :: qs
  | _ => none

/-- `ShowSelector.check_criteria` (src/grid_generator.py lines 71-87).

Returns `some b` when the Python method returns the boolean `b`, and
`none` when it raises (`min`/`max` over an empty or non-numeric
collection).  Structure mirrors the source: empty `values` falls through
to `return False`; for `duration`, if any property value is `None` the
`all(...)` guard fails and control also falls through to `return False`
(regardless of `forbidden`); otherwise the open-interval test
`min(values) < min(props) and max(props) < max(values)` is computed and
`forbidden` negates it; for the other categories the match is
`any(props.intersection(set(values)))` (an intersection element counts
only if truthy), negated by `forbidden`. -/
def check_criteria (item : ShowItem) (criteria : Criteria) : Option Bool :=
  let values := criteria.values
  let props := item.properties criteria.category
  let forbidden := criteria.forbidden
  if 0 < values.length then
    if criteria.category = CategoryCriteria.duration then
      if props.all (fun v => !(v = Val.null : Bool)) then
        match nums? values, nums? props with
        | some vq, some pq =>
          match vq.min?, pq.min?, pq.max?, vq.max? with
          | some vmin, some pmin, some pmax, some vmax =>
            some (xor (decide (vmin < pmin) && decide (pmax < vmax)) forbidden)
          | _, _, _, _ => none
        | _, _ => none
      else some false
    else
      some (xor (props.any fun p => values.contains p && truthy p) forbidden)
  else some false

/-! ## ShowSelector (src/grid_generator.py lines 32-69) -/

/-- A slot format (`SlotFormat` TypedDict).  The source stores ints;
numbers are embedded as `ℚ`. -/
structure SlotFormat where
  show_min_duration : ℚ
  show_max_duration : ℚ
  slot_duration : ℚ
deriving DecidableEq, Repr, Inhabited

/-- A block as built by `ChannelMaker.generate_block` and later filled by
`ShowSelector.generate_schedules`.  `beginAt`/`endAt` stand for the
source's `begin`/`end` keys (`end` is a Lean keyword). -/
structure GenBlock where
  beginAt : ℚ
  endAt : ℚ
  slot_count : ℕ
  slot_format : SlotFormat
  criteria : List Criteria
  shows : List ShowItem

/-- The channel fields used by `set_blocks` and `generate_schedules`:
`begin`, `end`, the candidate pools and the block list. -/
structure GenChannel where
  beginAt : ℚ
  endAt : ℚ
  available_slot_format : List SlotFormat
  available_slot_count : List ℕ
  blocks : List GenBlock

/-- `ShowSelector.get_matching_shows`: keeps the shows for which every
criterion check returns `True`.  The Python code first evaluates
`check_criteria` for all criteria of a show (building the `matches`
list), so any raising check aborts the whole call: modelled with
`Option.mapM`. -/
def get_matching_shows (show_list : List ShowItem) (criteria : List Criteria) :
    Option (List ShowItem) := do
  let mut? ← show_list.mapM fun item => do
    let matches0 ← criteria.mapM fun crit => check_criteria item crit
    pure (item, matches0.all id)
  pure ((mut?.filter fun p => p.2).map fun p => p.1)

/-- `ShowSelector.curate_channel`: each block's show list is shuffled in
place and truncated to the first 10 elements.  `shuffles i` is the
reordering the `random.shuffle` call performs on block number `i`. -/
def curate_channel (shuffles : ℕ → List ShowItem → List ShowItem)
    (blocks : List GenBlock) : List GenBlock :=
  (blocks.enum.map fun bi =>
    { bi.2 with shows := (shuffles bi.1 bi.2.shows).take 10 })

/-- `ShowSelector.generate_schedules`: for every block, prepend the
duration criterion derived from the block's slot format to the block's
criteria, select the matching shows, then curate the channel.  Returns
`none` when some `check_criteria` call raises. -/
def generate_schedules (show_list : List ShowItem)
    (shuffles : ℕ → List ShowItem → List ShowItem) (channel : GenChannel) :
    Option GenChannel := do
  let blocks ← channel.blocks.mapM fun block => do
    let slot := block.slot_format
    let all_criteria : List Criteria :=
      { category := CategoryCriteria.duration,
        values := [Val.n slot.show_min_duration, Val.n slot.show_max_duration],
        forbidden := false } :: block.criteria
    let matching_shows ← get_matching_shows show_list all_criteria
    pure { block with shows := matching_shows }
  pure { channel with blocks := curate_channel shuffles blocks }

/-! ## ChannelMaker block placement (src/grid_generator.py lines 90-200) -/

/-- Python `min(xs, key=f)`: the first element with minimal key.
Returns the supplied default on the empty list (where Python raises;
theorems always assume a non-empty pool). -/
def pyMinBy (f : SlotFormat → ℚ) (d : SlotFormat) : List SlotFormat → SlotFormat
  | [] => d
  | x :: xs => xs.foldl (fun a b => if f b < f a then b else a) x

/-- Python `min(xs)` on a list of naturals, with a default for the empty
list (where Python raises). -/
def pyMinNat (d : ℕ) : List ℕ → ℕ
  | [] => d
  | x :: xs => xs.foldl Nat.min x

/-- `ChannelMaker.minute_to_float_hour`. -/
def minute_to_float_hour (duration : ℚ) : ℚ := duration / 60

/-- `ChannelMaker.normalize_hour_to_day`. -/
def normalize_hour_to_day (hour : ℚ) : ℚ := if hour < 24 then hour else hour - 24

/-- `ChannelMaker.multiple_random_selection`: shuffle the options and
keep the first `randint(1, min(len, maximum))` of them.  `shuffle` is the
reordering performed by `random.shuffle` and `pick` drives `randint`
(any value; taken modulo the admissible range).  On an empty option list
Python raises (`randint(1, 0)`); the embedding returns `[]`. -/
def multiple_random_selection (options : List Val) (maximum_option_count : ℕ)
    (shuffle : List Val → List Val) (pick : ℕ) : List Val :=
  let option_count := min options.length maximum_option_count
  let option_kept_count := 1 + pick % max option_count 1
  (shuffle options).take option_kept_count

/-- `ChannelMaker.select_block_criteria`: one criterion per key of the
channel's `available_properties` pool (in insertion order); the
`duration` criterion copies the slot format's show-duration range, every
other category subsamples the pool through
`multiple_random_selection(values, 3)`, driven here by the `sel`
oracle.  The produced dicts carry no `forbidden` key (modelled as
`forbidden = false`, the default `check_criteria` reads). -/
def select_block_criteria (available_properties : List (CategoryCriteria × List Val))
    (slot_duration : SlotFormat)
    (sel : CategoryCriteria → List Val → List Val) : List Criteria :=
  available_properties.map fun pv =>
    if pv.1 = CategoryCriteria.duration then
      { category := CategoryCriteria.duration,
        values := [Val.n slot_duration.show_min_duration,
                   Val.n slot_duration.show_max_duration],
        forbidden := false }
    else
      { category := pv.1, values := sel pv.1 pv.2, forbidden := false }

/-- `ChannelMaker.generate_block` (src/grid_generator.py lines 146-166).

`pick = (pf, pc)` models the two `random.choice` calls (an arbitrary
index into each pool, taken modulo its length); in `force_minimum` mode
the duration-minimal slot format and the minimal slot count are used
instead.  Returns `none` exactly when the Python method returns `None`:
the block's end wraps past 24h (`end_date != normalized_end_date`) and
the wrapped end exceeds `channel.end`.  The stored `end` is the
unnormalized one (`block['end'] = end_date`). -/
def generate_block (fmts : List SlotFormat) (counts : List ℕ) (channelEnd : ℚ)
    (beginAt : ℚ) (force_minimum : Bool) (pick : ℕ × ℕ)
    (crits : List Criteria) : Option GenBlock :=
  let selected_slot_format :=
    if force_minimum then pyMinBy (fun s => s.slot_duration) default fmts
    else fmts.getD (pick.1 % fmts.length) default
  let selected_slot_count :=
    if force_minimum then pyMinNat 1 counts
    else counts.getD (pick.2 % counts.length) 1
  let block_duration :=
    minute_to_float_hour (selected_slot_format.slot_duration * selected_slot_count)
  let end_date := beginAt + block_duration
  let normalized_end_date := normalize_hour_to_day end_date
  if end_date ≠ normalized_end_date ∧ normalized_end_date > channelEnd then
    none
  else
    some { beginAt := beginAt, endAt := end_date,
           slot_count := selected_slot_count,
           slot_format := selected_slot_format,
           criteria := crits, shows := [] }

/-- Result of the `set_blocks` while-loop: the accumulated blocks and the
final `force_minimum` / `retry` values at the `break`. -/
structure SetBlocksResult where
  blocks : List GenBlock
  force_minimum : Bool
  retry : ℕ

/-- The `ChannelMaker.set_blocks` while-loop (src/grid_generator.py lines
128-144), with explicit fuel (`none` = fuel exhausted before the loop's
own `break`; the termination theorem shows enough fuel always exists).
`picks i` drives the two `random.choice` calls of iteration `i`, and
`sel i` the `multiple_random_selection` calls inside
`select_block_criteria` for a block created at iteration `i`.  The
source's `if retry > 1: break` runs after either branch; after a success
`retry` was just reset to 0, so the test is live only after a failure. -/
def set_blocks_go (fmts : List SlotFormat) (counts : List ℕ)
    (availProps : List (CategoryCriteria × List Val)) (channelEnd : ℚ)
    (picks : ℕ → ℕ × ℕ) (sel : ℕ → CategoryCriteria → List Val → List Val) :
    ℕ → ℕ → ℚ → List GenBlock → Bool → ℕ → Option SetBlocksResult
  | 0, _, _, _, _, _ => none
  | fuel + 1, i, beginAt, blocks, force_minimum, retry =>
    let sf :=
      if force_minimum then pyMinBy (fun s => s.slot_duration) default fmts
      else fmts.getD ((picks i).1 % fmts.length) default
    match generate_block fmts counts channelEnd beginAt force_minimum (picks i)
        (select_block_criteria availProps sf (sel i)) with
    | some block =>
      if 0 > 1 then some ⟨blocks ++ [block], force_minimum, 0⟩
      else set_blocks_go fmts counts availProps channelEnd picks sel
        fuel (i + 1) block.endAt (blocks ++ [block]) force_minimum 0
    | none =>
      if retry + 1 > 1 then some ⟨blocks, true, retry + 1⟩
      else set_blocks_go fmts counts availProps channelEnd picks sel
        fuel (i + 1) beginAt blocks true (retry + 1)

/-- `ChannelMaker.set_blocks`: run the loop from `channel.begin` with no
blocks, `force_minimum = False` and `retry = 0`. -/
def set_blocks (channel : GenChannel)
    (availProps : List (CategoryCriteria × List Val))
    (picks : ℕ → ℕ × ℕ) (sel : ℕ → CategoryCriteria → List Val → List Val)
    (fuel : ℕ) : Option SetBlocksResult :=
  set_blocks_go channel.available_slot_format channel.available_slot_count
    availProps channel.endAt picks sel fuel 0 channel.beginAt [] false 0

/-! ## Dynamically-typed values for the catalog validator
(src/data/prompts/scripts/catalog_validation.py)

The validator consumes arbitrary parsed JSON, so it is embedded over a
Python-value type.  Functions that can raise return `Except Unit _`. -/

/-- A Python value as the validator sees it.  `int` and `float` are kept
distinct because the validator uses `isinstance(..., int)` /
`isinstance(..., (int, float))`; `bool` is separate because Python's
`bool` is a subtype of `int`. -/
inductive PyVal where
  | null
  | bool (b : Bool)
  | int (n : ℤ)
  | float (q : ℚ)
  | str (s : String)
  | list (xs : List PyVal)
  | dict (kvs : List (String × PyVal))

/-- Numeric view of a Python value (`bool` counts as 0/1, as in Python
arithmetic and comparisons). -/
def pyNum? : PyVal → Option ℚ
  | .int n => some (n : ℚ)
  | .float q => some q
  | .bool b => some (if b then 1 else 0)
  | _ => none

/-- Python `float(x)`: succeeds on int/float/bool.  (Python also parses
numeric strings; no claim involves string-encoded numbers, and the
embedding reports them as a conversion failure.) -/
def pyFloat? (v : PyVal) : Except Unit ℚ :=
  match pyNum? v with
  | some q => Except.ok q
  | none => Except.error ()

/-- Python `==` between the scalar values this validator compares
(numbers — with int/float/bool coercion — strings and `None`; the source
never compares lists or dicts with `==`). -/
def pyEq (a b : PyVal) : Bool :=
  match pyNum? a, pyNum? b with
  | some x, some y => decide (x = y)
  | _, _ =>
    match a, b with
    | .str s, .str t => s = t
    | .null, .null => true
    | _, _ => false

/-- `x.get(k, d)` on a Python value: raises (`AttributeError`) unless
`x` is a dict. -/
def pyGet? (v : PyVal) (k : String) (d : PyVal) : Except Unit PyVal :=
  match v with
  | .dict kvs => Except.ok ((kvs.lookup k).getD d)
  | _ => Except.error ()

/-- `x[k]` on a Python value: raises (`KeyError`/`TypeError`) unless `x`
is a dict containing `k`. -/
def pySub? (v : PyVal) (k : String) : Except Unit PyVal :=
  match v with
  | .dict kvs =>
    match kvs.lookup k with
    | some x => Except.ok x
    | none => Except.error ()
  | _ => Except.error ()

/-- `k in x` on a Python value: the validator only applies it to dicts;
on any other value the embedding raises (as Python does on non-iterables;
the substring reading for strings is outside every claim). -/
def pyHasKey? (v : PyVal) (k : String) : Except Unit Bool :=
  match v with
  | .dict kvs => Except.ok ((kvs.lookup k).isSome)
  | _ => Except.error ()

/-- `v in S` for a Python set of strings `S`: raises (`TypeError`) when
`v` is unhashable (a list or dict); otherwise only a string can be a
member. -/
def pyInStrSet? (v : PyVal) (keys : List String) : Except Unit Bool :=
  match v with
  | .list _ => Except.error ()
  | .dict _ => Except.error ()
  | .str s => Except.ok (keys.contains s)
  | _ => Except.ok false

/-- `isinstance(v, bool)`. -/
def isBoolV : PyVal → Bool
  | .bool _ => true
  | _ => false

/-- `isinstance(v, int)` (Python bools are ints). -/
def isIntV : PyVal → Bool
  | .int _ => true
  | .bool _ => true
  | _ => false

/-- `isinstance(v, (int, float))` (includes bools). -/
def isNumV : PyVal → Bool
  | .int _ => true
  | .float _ => true
  | .bool _ => true
  | _ => false

/-- `isinstance(v, str)`. -/
def isStrV : PyVal → Bool
  | .str _ => true
  | _ => false

/-- `isinstance(v, list)`. -/
def isListV : PyVal → Bool
  | .list _ => true
  | _ => false

/-- `isinstance(v, dict)`. -/
def isDictV : PyVal → Bool
  | .dict _ => true
  | _ => false

/-! ## The catalog validator itself -/

/-- `almost_equal(a, b, tol=1e-6)`. -/
def tol : ℚ := 1 / 1000000

/-- `almost_equal` as a Bool. -/
def almost_equal (a b : ℚ) : Bool := |a - b| ≤ tol

/-- `ALLOWED_SLOT_FORMATS` (the 5 allowed shapes), as
(show_min_duration, show_max_duration, slot_duration) triples. -/
def ALLOWED_SLOT_FORMATS : List (ℤ × ℤ × ℤ) :=
  [(22, 26, 30), (45, 52, 60), (70, 80, 90), (95, 110, 120), (12, 13, 15)]

/-- `GENRE_KEYS`: the keys of `GENRES_NORMALISES`. -/
def GENRE_KEYS : List String :=
  ["Podcast", "Animation", "Science-Fiction", "Fantastique", "Family",
   "Horror", "Mini-Series", "Documentaire", "Histoire", "Action",
   "Aventure", "Crime", "War & Politics", "Talk Show", "Comédie",
   "Jeux télé", "Sport", "Western", "Drame", "Martial Arts", "Suspense",
   "Mystery", "Romance", "YouTube"]

/-- `ALLOWED_TYPES`. -/
def ALLOWED_TYPES : List String := ["series", "movie"]

/-- `ALLOWED_CRITERIA_CATEGORIES`. -/
def ALLOWED_CRITERIA_CATEGORIES : List String :=
  ["genre", "type", "language", "duration"]

/-- `is_allowed_slot_format(sf)`: the three numeric fields (missing keys
read as `None` through `sf.get`) must equal those of one of the 5
allowed shapes. -/
def is_allowed_slot_format (kvs : List (String × PyVal)) : Bool :=
  ALLOWED_SLOT_FORMATS.any fun x =>
    pyEq ((kvs.lookup "show_min_duration").getD .null) (.int x.1) &&
    pyEq ((kvs.lookup "show_max_duration").getD .null) (.int x.2.1) &&
    pyEq ((kvs.lookup "slot_duration").getD .null) (.int x.2.2)

/-- One error entry of the validator, one constructor per `errs.append`
site of catalog_validation.py, carrying the location indices (channel
`ch`, sorted-block `j`, criterion `k`, consecutive-pair `i`) and, for
the temporal pair errors, the numbers printed in the message.  The
French message text itself is abstracted away. -/
inductive VErr where
  | catMissingKey (key : String)
  | catChannelsNotList
  | chMissingKey (ch : ℕ) (key : String)
  | chBeginEndOrder (ch : ℕ) (b e : ℚ)
  | chBeginEndNotNum (ch : ℕ)
  | fillersNotList (ch : ℕ)
  | fillerUnknownGenre (ch : ℕ)
  | blocksEmptyOrNotList (ch : ℕ)
  | blocksSortFail (ch : ℕ)
  | firstBeginMismatch (ch : ℕ) (expected got : ℚ)
  | lastEndMismatch (ch : ℕ) (expected got : ℚ)
  | overlapPair (ch i : ℕ) (curEnd nxtBegin : ℚ)
  | gapPair (ch i : ℕ) (curEnd nxtBegin : ℚ)
  | blockOutOfRange (ch j : ℕ)
  | blkMissingKey (ch j : ℕ) (key : String)
  | blkBeginEndOrder (ch j : ℕ) (b e : ℚ)
  | blkBeginEndNotNum (ch j : ℕ)
  | slotCountInvalid (ch j : ℕ)
  | slotFormatInvalid (ch j : ℕ)
  | blockDurationMismatch (ch j : ℕ) (actual expected : ℚ)
  | criteriaEmptyOrNotList (ch j : ℕ)
  | showsMissing (ch j : ℕ)
  | showsNotList (ch j : ℕ)
  | critCategoryInvalid (ch j k : ℕ)
  | critForbiddenNotBool (ch j k : ℕ)
  | critValuesEmptyOrNotList (ch j k : ℕ)
  | critGenreUnknown (ch j k : ℕ)
  | critTypeInvalid (ch j k : ℕ)
  | critLanguageNotString (ch j k : ℕ)
  | critDurationNotNum (ch j k : ℕ)
  | critDurationNotPositive (ch j k : ℕ)
deriving DecidableEq, Repr

/-- The required-key loops (`for k in required: if k not in x: append`),
shared by the catalog/channel/block validators. -/
def missingKeyErrs (x : PyVal) (keys : List String) (mk : String → VErr) :
    Except Unit (List VErr) := do
  let ls ← keys.mapM fun key => do
    let h ← pyHasKey? x key
    pure (if h then ([] : List VErr) else [mk key])
  pure ls.flatten

/-- The `try: begin = float(x.get("begin", 0)); end = float(x.get("end",
0))` conversion shared by the channel and block validators; the caller
matches on the result, mirroring `except Exception`. -/
def beginEnd? (x : PyVal) : Except Unit (ℚ × ℚ) := do
  let bv ← pyGet? x "begin" (.int 0)
  let ev ← pyGet? x "end" (.int 0)
  let bq ← pyFloat? bv
  let eq' ← pyFloat? ev
  Except.ok (bq, eq')

/-- The per-category `values` checks of `validate_criterion` (the
`elif cat == ...` chain over the non-empty values list). -/
def critValuesErrs (cat : PyVal) (vs : List PyVal) (ch j k : ℕ) :
    Except Unit (List VErr) :=
  if pyEq cat (.str "genre") then do
    let ls ← vs.mapM fun v => do
      let known ← pyInStrSet? v GENRE_KEYS
      pure (if known then ([] : List VErr) else [.critGenreUnknown ch j k])
    pure ls.flatten
  else if pyEq cat (.str "type") then do
    let ls ← vs.mapM fun v => do
      let ok ← pyInStrSet? v ALLOWED_TYPES
      pure (if ok then ([] : List VErr) else [.critTypeInvalid ch j k])
    pure ls.flatten
  else if pyEq cat (.str "language") then
    pure (vs.flatMap fun v =>
      if isStrV v then [] else [VErr.critLanguageNotString ch j k])
  else if pyEq cat (.str "duration") then
    pure (vs.flatMap fun v =>
      if !isNumV v then [VErr.critDurationNotNum ch j k]
      else if (pyNum? v).getD 0 ≤ 0 then [VErr.critDurationNotPositive ch j k]
      else [])
  else pure []

/-- The `values` check of `validate_criterion`: a non-list or empty
`values` is one error, otherwise the per-category loop runs. -/
def critValuesStage (cat values : PyVal) (ch j k : ℕ) : Except Unit (List VErr) :=
  match values with
  | .list vs =>
    if vs.isEmpty then pure [VErr.critValuesEmptyOrNotList ch j k]
    else critValuesErrs cat vs ch j k
  | _ => pure [VErr.critValuesEmptyOrNotList ch j k]

/-- `validate_criterion(crit, prefix)` at location (ch, j, k). -/
def validate_criterion (crit : PyVal) (ch j k : ℕ) : Except Unit (List VErr) := do
  let cat ← pyGet? crit "category" .null
  let catOk ← pyInStrSet? cat ALLOWED_CRITERIA_CATEGORIES
  let e1 : List VErr := if catOk then [] else [.critCategoryInvalid ch j k]
  let forbidden ← pyGet? crit "forbidden" .null
  let e2 : List VErr := if isBoolV forbidden then [] else [.critForbiddenNotBool ch j k]
  let values ← pyGet? crit "values" .null
  let e3 ← critValuesStage cat values ch j k
  pure (e1 ++ e2 ++ e3)

/-- The block-duration arithmetic check of `validate_block`
(`expected = sf.get("slot_duration", 0) * slot_count / 60.0`), run only
when `sf` is a dict, `begin`/`end` converted and `slot_count` is an int;
raises when the slot duration is not numeric (in Python the `*`/`/`
chain raises a `TypeError` then). -/
def blockDurationErrs (sf : PyVal) (bbe : Except Unit (ℚ × ℚ))
    (slot_count : PyVal) (ch j : ℕ) : Except Unit (List VErr) :=
  match sf, bbe, isIntV slot_count with
  | .dict kvs, .ok (bq, eq'), true =>
    match pyNum? ((kvs.lookup "slot_duration").getD (.int 0)) with
    | some sdq =>
      let expected_hours := sdq * ((pyNum? slot_count).getD 0) / 60
      let actual_hours := eq' - bq
      pure (if almost_equal expected_hours actual_hours then ([] : List VErr)
        else [.blockDurationMismatch ch j actual_hours expected_hours])
    | none => Except.error ()
  | _, _, _ => pure []

/-- The criteria section of `validate_block`. -/
def blockCriteriaErrs (criteria : PyVal) (ch j : ℕ) : Except Unit (List VErr) :=
  match criteria with
  | .list cs =>
    if cs.isEmpty then pure [VErr.criteriaEmptyOrNotList ch j]
    else do
      let ls ← cs.enum.mapM fun kc => validate_criterion kc.2 ch j kc.1
      pure ls.flatten
  | _ => pure [VErr.criteriaEmptyOrNotList ch j]

/-- The `shows` section of `validate_block`: missing key is one error,
a present non-list another. -/
def showsErrs (block : PyVal) (ch j : ℕ) : Except Unit (List VErr) := do
  let hs ← pyHasKey? block "shows"
  if hs then do
    let sv ← pySub? block "shows"
    pure (if isListV sv then ([] : List VErr) else [.showsNotList ch j])
  else pure [VErr.showsMissing ch j]

/-- `validate_block(block, prefix)` at location (ch, j).  The
`try/except` around the `begin`/`end` conversion is the `match` on
`bbe`; all other lookups propagate exceptions as the source does. -/
def validate_block (block : PyVal) (ch j : ℕ) : Except Unit (List VErr) := do
  let eKeys ← missingKeyErrs block
    ["criteria", "begin", "end", "slot_count", "slot_format", "shows"]
    (VErr.blkMissingKey ch j)
  let bbe := beginEnd? block
  let eOrd : List VErr :=
    match bbe with
    | .ok (bq, eq') => if bq < eq' then [] else [.blkBeginEndOrder ch j bq eq']
    | .error _ => [.blkBeginEndNotNum ch j]
  let slot_count ← pyGet? block "slot_count" .null
  let eSc : List VErr :=
    if pyEq slot_count (.int 1) || pyEq slot_count (.int 2) then []
    else [.slotCountInvalid ch j]
  let sf ← pyGet? block "slot_format" (.dict [])
  let eSf : List VErr :=
    match sf with
    | .dict kvs => if is_allowed_slot_format kvs then [] else [.slotFormatInvalid ch j]
    | _ => [.slotFormatInvalid ch j]
  let eDur ← blockDurationErrs sf bbe slot_count ch j
  let criteria ← pyGet? block "criteria" (.list [])
  let eCrit ← blockCriteriaErrs criteria ch j
  let eShows ← showsErrs block ch j
  pure (eKeys ++ eOrd ++ eSc ++ eSf ++ eDur ++ eCrit ++ eShows)

/-- The sort `sorted(blocks, key=lambda b: float(b["begin"]))`: extract
every key first (any failure is caught by the source's `try` and turned
into the sort-failure error) and stable-insertion-sort by key, which on
distinct keys agrees with Python's stable sort. -/
def insertKeyed (x : ℚ × PyVal) : List (ℚ × PyVal) → List (ℚ × PyVal)
  | [] => [x]
  | y :: ys => if y.1 ≤ x.1 then y :: insertKeyed x ys else x :: y :: ys

/-- Stable sort of key/value pairs (insertion into an already sorted
accumulator keeps earlier equal-keyed elements first). -/
def sortKeyed (l : List (ℚ × PyVal)) : List (ℚ × PyVal) :=
  l.foldl (fun acc x => insertKeyed x acc) []

/-- Extract each block's `float(b["begin"])` key and sort. -/
def sortBlocks? (bs : List PyVal) : Except Unit (List PyVal) := do
  let keyed ← bs.mapM fun b => do
    let k ← pySub? b "begin"
    let kq ← pyFloat? k
    pure (kq, b)
  Except.ok ((sortKeyed keyed).map fun p => p.2)

/-- The consecutive-pair loop of `validate_channel`: for each adjacent
pair (cur_end, nxt_begin), an overlap error when
`cur_end > nxt_begin + 1e-6` and a gap error when `almost_equal` fails,
appended in source order. -/
def pairErrs (ch : ℕ) : ℕ → List (ℚ × ℚ) → List VErr
  | _, [] => []
  | i, (curEnd, nxtBegin) :: rest =>
    (if curEnd > nxtBegin + tol then [VErr.overlapPair ch i curEnd nxtBegin] else []) ++
    (if !almost_equal curEnd nxtBegin then [VErr.gapPair ch i curEnd nxtBegin] else []) ++
    pairErrs ch (i + 1) rest

/-- The temporal section of `validate_channel` (first/last boundary,
overlap/gap pairs, out-of-range blocks), entered only when the channel's
`begin`/`end` were numeric.  Exceptions mirror the source: every block's
`begin` is already known convertible (the sort succeeded); the first
failing `float(b["end"])` raises. -/
def temporalErrs (ch : ℕ) (cb ce : ℚ) (sorted : List PyVal) :
    Except Unit (List VErr) := do
  let begins ← sorted.mapM fun b => do pyFloat? (← pySub? b "begin")
  let lastEnd ← do pyFloat? (← pySub? ((sorted.getLast?).getD .null) "end")
  let ends ← sorted.mapM fun b => do pyFloat? (← pySub? b "end")
  let eFirst : List VErr :=
    match begins.head? with
    | some fb => if almost_equal fb cb then [] else [.firstBeginMismatch ch cb fb]
    | none => []
  let eLast : List VErr :=
    if almost_equal lastEnd ce then [] else [.lastEndMismatch ch ce lastEnd]
  let ePairs := pairErrs ch 0 (ends.zip (begins.drop 1))
  let eRange := (begins.zip ends).enum.flatMap fun jp =>
    if jp.2.1 < cb - tol ∨ jp.2.2 > ce + tol then [VErr.blockOutOfRange ch jp.1]
    else []
  pure (eFirst ++ eLast ++ ePairs ++ eRange)

/-- The fillers section of `validate_channel`: each filler must be a
normalized genre key (`g not in GENRE_KEYS` raises on unhashable
fillers). -/
def fillersErrs (fillers : PyVal) (idx : ℕ) : Except Unit (List VErr) :=
  match fillers with
  | .list gs => do
    let ls ← gs.mapM fun g => do
      let known ← pyInStrSet? g GENRE_KEYS
      pure (if known then ([] : List VErr) else [.fillerUnknownGenre idx])
    pure ls.flatten
  | _ => pure [VErr.fillersNotList idx]

/-- The temporal section guard of `validate_channel`: only run when the
channel's `begin`/`end` converted (`begin is not None and end is not
None`). -/
def temporalStage (bbe : Except Unit (ℚ × ℚ)) (idx : ℕ) (sorted : List PyVal) :
    Except Unit (List VErr) :=
  match bbe with
  | .ok (cb, ce) => temporalErrs idx cb ce sorted
  | .error _ => pure []

/-- `validate_channel(channel, idx)` (catalog_validation.py lines
74-141).  The first `channel.get('name', '?')` (used in the message
prefix) raises on a non-dict channel, exactly as the source's
f-string does. -/
def validate_channel (channel : PyVal) (idx : ℕ) : Except Unit (List VErr) := do
  let _name ← pyGet? channel "name" (.str "?")
  let eKeys ← missingKeyErrs channel
    ["name", "description", "begin", "end", "fillers", "blocks"]
    (VErr.chMissingKey idx)
  let bbe := beginEnd? channel
  let eBE : List VErr :=
    match bbe with
    | .ok (bq, eq') => if bq < eq' then [] else [.chBeginEndOrder idx bq eq']
    | .error _ => [.chBeginEndNotNum idx]
  let fillers ← pyGet? channel "fillers" (.list [])
  let eFill ← fillersErrs fillers idx
  let head := eKeys ++ eBE ++ eFill
  let blocks ← pyGet? channel "blocks" (.list [])
  match blocks with
  | .list bs =>
    if bs.isEmpty then Except.ok (head ++ [.blocksEmptyOrNotList idx])
    else
      match sortBlocks? bs with
      | .error _ => Except.ok (head ++ [.blocksSortFail idx])
      | .ok blocks_sorted => do
        let eTemp ← temporalStage bbe idx blocks_sorted
        let eBlocks ← blocks_sorted.enum.mapM fun jb => validate_block jb.2 idx jb.1
        Except.ok (head ++ eTemp ++ eBlocks.flatten)
  | _ => Except.ok (head ++ [.blocksEmptyOrNotList idx])

/-- The `channels`-is-a-list check of `validate_catalog_struct`. -/
def catChannelsErrs (catalog : PyVal) : Except Unit (List VErr) := do
  let hch ← pyHasKey? catalog "channels"
  if hch then do
    let cv ← pySub? catalog "channels"
    pure (if isListV cv then ([] : List VErr) else [VErr.catChannelsNotList])
  else pure ([] : List VErr)

/-- `validate_catalog_struct(catalog)`. -/
def validate_catalog_struct (catalog : PyVal) : Except Unit (List VErr) := do
  let eKeys ← missingKeyErrs catalog ["name", "step", "channels"] VErr.catMissingKey
  let eCh ← catChannelsErrs catalog
  pure (eKeys ++ eCh)

/-- `validate_catalog(catalog)` (catalog_validation.py lines 228-235). -/
def validate_catalog (catalog : PyVal) : Except Unit (List VErr) := do
  let e1 ← validate_catalog_struct catalog
  let channels :=
    match catalog with
    | .dict kvs => (kvs.lookup "channels").getD (.list [])
    | _ => .list []
  match channels with
  | .list chs => do
    let ls ← chs.enum.mapM fun ic => validate_channel ic.2 ic.1
    pure (e1 ++ ls.flatten)
  | _ => pure e1

/-- `True` when an `Except` computation raised, i.e. the modelled Python
call ends in an uncaught exception. -/
def raises {α : Type} (e : Except Unit α) : Bool :=
  match e with
  | .error _ => true
  | .ok _ => false

/-! ## Encoding generated records as Python values

The generation pipeline produces plain dicts; these encoders spell out
the exact keys each construction site writes (in insertion order). -/

/-- The category tags as serialized (str-valued enum). -/
def catStr : CategoryCriteria → String
  | .genre => "genre"
  | .type => "type"
  | .language => "language"
  | .duration => "duration"

/-- A criterion scalar as a Python value. -/
def encodeVal : Val → PyVal
  | .s x => .str x
  | .n q => .float q
  | .null => .null

/-- A property list as a Python value. -/
def encodeVals (l : List Val) : PyVal := .list (l.map encodeVal)

/-- A generated criterion dict: `select_block_criteria` writes only
`category` and `values` (never `forbidden`). -/
def encodeCriteria (c : Criteria) : PyVal :=
  .dict [("category", .str (catStr c.category)), ("values", encodeVals c.values)]

/-- A slot format dict (ints in the source pools). -/
def encodeSlotFormat (sf : SlotFormat) : PyVal :=
  .dict [("show_min_duration", .float sf.show_min_duration),
         ("show_max_duration", .float sf.show_max_duration),
         ("slot_duration", .float sf.slot_duration)]

/-- A show dict (the validator only ever checks that `shows` is a
list). -/
def encodeShow (s : ShowItem) : PyVal := .dict [("name", .str s.name)]

/-- A generated block dict, keys in the order `generate_block` and
`generate_schedules` write them. -/
def encodeBlock (b : GenBlock) : PyVal :=
  .dict [("begin", .float b.beginAt), ("end", .float b.endAt),
         ("slot_count", .int (b.slot_count : ℤ)),
         ("slot_format", encodeSlotFormat b.slot_format),
         ("criteria", .list (b.criteria.map encodeCriteria)),
         ("shows", .list (b.shows.map encodeShow))]

/-- A generated channel dict: `set_slot_config`, `set_properties` and
`set_blocks` write these keys; `name`, `description` and `fillers` are
never written by the random generator. -/
def encodeChannel (ch : GenChannel) : PyVal :=
  .dict [("available_slot_count",
            .list (ch.available_slot_count.map fun c => .int (c : ℤ))),
         ("available_slot_format",
            .list (ch.available_slot_format.map encodeSlotFormat)),
         ("begin", .float ch.beginAt), ("end", .float ch.endAt),
         ("blocks", .list (ch.blocks.map encodeBlock))]

/-! ## A decidable safe domain for the validator (claim C4)

`validate_catalog` does raise on some malformed inputs (e.g. a non-dict
channel).  `domainOk` is a sufficient, decidable condition under which
it is proven total. -/

/-- Hashable scalar (not a list or dict). -/
def scalarOk (v : PyVal) : Bool := !isListV v && !isDictV v

/-- Safe shape of one criterion object: a dict whose `category` is
hashable and whose `values`, when a list, holds only hashable
scalars. -/
def critOk (c : PyVal) : Bool :=
  match c with
  | .dict kvs =>
    scalarOk ((kvs.lookup "category").getD .null) &&
    (match (kvs.lookup "values").getD .null with
     | .list vs => vs.all scalarOk
     | _ => true)
  | _ => false

/-- Safe shape of one block object: a dict with numeric `begin` and
`end` present, a `slot_format` that, when a dict, has a numeric (or
absent) `slot_duration`, and criteria that, when a list, are all safe
criterion objects. -/
def blockOk (b : PyVal) : Bool :=
  match b with
  | .dict kvs =>
    (match kvs.lookup "begin" with | some v => isNumV v | none => false) &&
    (match kvs.lookup "end" with | some v => isNumV v | none => false) &&
    (match (kvs.lookup "slot_format").getD (.dict []) with
     | .dict skvs => isNumV ((skvs.lookup "slot_duration").getD (.int 0))
     | _ => true) &&
    (match (kvs.lookup "criteria").getD (.list []) with
     | .list cs => cs.all critOk
     | _ => true)
  | _ => false

/-- Safe shape of one channel object: a dict whose `fillers`, when a
list, holds only hashable values, and whose `blocks`, when a list, are
all safe block objects. -/
def channelOk (c : PyVal) : Bool :=
  match c with
  | .dict kvs =>
    (match (kvs.lookup "fillers").getD (.list []) with
     | .list gs => gs.all scalarOk
     | _ => true) &&
    (match (kvs.lookup "blocks").getD (.list []) with
     | .list bs => bs.all blockOk
     | _ => true)
  | _ => false

/-- Safe shape of a whole catalog object. -/
def domainOk (catalog : PyVal) : Bool :=
  match catalog with
  | .dict kvs =>
    (match (kvs.lookup "channels").getD (.list []) with
     | .list chs => chs.all channelOk
     | _ => true)
  | _ => false

/-! ## Auxiliary notions used by the claim statements -/

/-- The numbers of a scalar list, in order. -/
def qlist (l : List Val) : List ℚ :=
  l.filterMap fun v => match v with | .n q => some q | _ => none

/-- Minimum of a rational list (0 on the empty list, which never occurs
in the statements using it). -/
def minOf (l : List ℚ) : ℚ := l.min?.getD 0

/-- Maximum of a rational list (0 on the empty list). -/
def maxOf (l : List ℚ) : ℚ := l.max?.getD 0

/-- Error kinds that a pipeline-generated channel is proven never to
trigger: the consecutive-pair temporal errors (overlap/gap), the
first-block boundary mismatch, the duration-arithmetic mismatch, the
block-level ordering/numeric errors and the temporal prerequisites
(unsortable blocks, non-numeric channel bounds).  `goodKind e = true`
for every other kind (structural, categorical, last-block boundary
mismatch, out-of-range blocks, channel-level begin<end). -/
def goodKind : VErr → Bool
  | .firstBeginMismatch .. => false
  | .overlapPair .. => false
  | .gapPair .. => false
  | .blockDurationMismatch .. => false
  | .blkBeginEndOrder .. => false
  | .blkBeginEndNotNum .. => false
  | .chBeginEndNotNum .. => false
  | .blocksSortFail .. => false
  | _ => true

/-- The blocks form a contiguous chain starting at `b0` and ending at
`cur`: each block begins where its predecessor ended (`set_blocks`
advances `begin = block['end']`). -/
def ChainFrom : ℚ → List GenBlock → ℚ → Prop
  | b0, [], cur => cur = b0
  | b0, x :: xs, cur => x.beginAt = b0 ∧ ChainFrom x.endAt xs cur

/-- A block as `generate_block` builds it: its end is its begin plus
`slot_duration * slot_count / 60` and its shape comes from the channel
pools. -/
def WFBlock (fmts : List SlotFormat) (counts : List ℕ) (b : GenBlock) : Prop :=
  b.endAt = b.beginAt + b.slot_format.slot_duration * (b.slot_count : ℚ) / 60 ∧
  b.slot_format ∈ fmts ∧ b.slot_count ∈ counts

/-- A block object for claim C7: numeric `begin`/`end` plus arbitrary
further dict entries. -/
structure EBlock where
  beginAt : ℚ
  endAt : ℚ
  extra : List (String × PyVal)

/-- Encode an `EBlock` as the block dict the validator reads. -/
def encodeEBlock (b : EBlock) : PyVal :=
  .dict (("begin", .float b.beginAt) :: ("end", .float b.endAt) :: b.extra)

/-- Stable insertion (by `begin`) of an `EBlock`, matching
`insertKeyed` on the encoded blocks. -/
def insertEB (x : EBlock) : List EBlock → List EBlock
  | [] => [x]
  | y :: ys => if y.beginAt ≤ x.beginAt then y :: insertEB x ys else x :: y :: ys

/-- The validator's stable sort, expressed on `EBlock`s. -/
def sortEB (l : List EBlock) : List EBlock :=
  l.foldl (fun acc x => insertEB x acc) []

/-- A typed channel dict for claim C7. -/
def encodeEChannel (nm desc : String) (qb qe : ℚ) (fillers : List String)
    (blocks : List EBlock) : PyVal :=
  .dict [("name", .str nm), ("description", .str desc), ("begin", .float qb),
         ("end", .float qe), ("fillers", .list (fillers.map PyVal.str)),
         ("blocks", .list (blocks.map encodeEBlock))]

/-- Upper bound on any cursor position from which `generate_block` can
still succeed: a success's end is below 24, or wraps to at most
`channel.end`. -/
def loopBound (channelEnd : ℚ) : ℚ := max 24 (24 + channelEnd)

/-- The least duration any placed block can have: the pool's minimal
slot duration times one slot, in hours. -/
def minStep (fmts : List SlotFormat) : ℚ :=
  (pyMinBy (fun s => s.slot_duration) default fmts).slot_duration / 60

/-- Termination measure for the `set_blocks` loop: how many minimal
steps remain before the cursor passes `loopBound`. -/
def loopMeasure (fmts : List SlotFormat) (channelEnd q : ℚ) : ℕ :=
  (⌈(loopBound channelEnd - q) / minStep fmts⌉).toNat

/-- Divergence of the `set_blocks` while-loop on a configuration: no
amount of fuel makes the embedded loop reach its own `break`, i.e. the
Python loop runs forever. -/
def SetBlocksDiverges (channel : GenChannel)
    (availProps : List (CategoryCriteria × List Val))
    (picks : ℕ → ℕ × ℕ)
    (sel : ℕ → CategoryCriteria → List Val → List Val) : Prop :=
  ∀ fuel : ℕ, set_blocks channel availProps picks sel fuel = none

/-- The slot format chosen by `generate_block` (random pick or forced
minimum). -/
def chosenFormat (fmts : List SlotFormat) (force : Bool) (p : ℕ) : SlotFormat :=
  if force then pyMinBy (fun s => s.slot_duration) default fmts
  else fmts.getD (p % fmts.length) default

/-- The slot count chosen by `generate_block`. -/
def chosenCount (counts : List ℕ) (force : Bool) (p : ℕ) : ℕ :=
  if force then pyMinNat 1 counts else counts.getD (p % counts.length) 1

/-- The fields of a generated block that the schedule-filling stage
(`generate_schedules` / `curate_channel`) never touches: everything but
the `shows` list. -/
def blockFrame (b : GenBlock) : ℚ × ℚ × ℕ × SlotFormat :=
  (b.beginAt, b.endAt, b.slot_count, b.slot_format)

/-! # Theorems -/

/-! ## Basic facts about `check_criteria` -/

theorem nums?_eq_qlist {l : List Val} (h : ∀ v ∈ l, ∃ q, v = Val.n q) :
    nums? l = some (qlist l) := by
  induction l with
  | nil => rfl
  | cons x xs ih =>
    obtain ⟨q, rfl⟩ := h x (List.mem_cons_self x xs)
    have hx : nums? xs = some (qlist xs) := ih fun v hv => h v (List.mem_cons_of_mem _ hv)
    simp [nums?, qlist, hx, List.filterMap_cons]

theorem qlist_cons_n (q : ℚ) (xs : List Val) :
    qlist (Val.n q :: xs) = q :: qlist xs := by
  simp [qlist, List.filterMap_cons]

theorem check_criteria_empty_values (item : ShowItem) (c : Criteria)
    (h : c.values = []) : check_criteria item c = some false := by
  simp [check_criteria, h]

theorem check_criteria_categorical (item : ShowItem) (c : Criteria)
    (hcat : c.category ≠ CategoryCriteria.duration) (hv : c.values ≠ []) :
    check_criteria item c =
      some (xor ((item.properties c.category).any
        fun p => c.values.contains p && truthy p) c.forbidden) := by
  simp [check_criteria, hcat, List.length_pos.mpr hv]

theorem check_criteria_duration_null (item : ShowItem) (c : Criteria)
    (hcat : c.category = CategoryCriteria.duration) (hv : c.values ≠ [])
    (hnull : Val.null ∈ item.properties CategoryCriteria.duration) :
    check_criteria item c = some false := by
  have hall : ((item.properties CategoryCriteria.duration).all
      fun v => !(v = Val.null : Bool)) = false := by
    rw [List.all_eq_false]
    exact ⟨Val.null, hnull, by simp⟩
  simp [check_criteria, hcat, List.length_pos.mpr hv, hall]

theorem check_criteria_duration_num (item : ShowItem) (c : Criteria)
    (hcat : c.category = CategoryCriteria.duration) (hv : c.values ≠ [])
    (hvnum : ∀ v ∈ c.values, ∃ q, v = Val.n q)
    (hpne : item.properties CategoryCriteria.duration ≠ [])
    (hpnum : ∀ v ∈ item.properties CategoryCriteria.duration, ∃ q, v = Val.n q) :
    check_criteria item c =
      some (xor
        (decide (minOf (qlist c.values) <
            minOf (qlist (item.properties CategoryCriteria.duration))) &&
         decide (maxOf (qlist (item.properties CategoryCriteria.duration)) <
            maxOf (qlist c.values))) c.forbidden) := by
  have hall : (item.properties CategoryCriteria.duration).all
      (fun v => !(v = Val.null : Bool)) = true := by
    simp only [List.all_eq_true]
    intro v hvmem
    obtain ⟨q, rfl⟩ := hpnum v hvmem
    simp
  have hnv : nums? c.values = some (qlist c.values) := nums?_eq_qlist hvnum
  have hnp : nums? (item.properties CategoryCriteria.duration) =
      some (qlist (item.properties CategoryCriteria.duration)) := nums?_eq_qlist hpnum
  obtain ⟨v0, vs, hveq⟩ : ∃ v0 vs, c.values = v0 :: vs := by
    cases hc : c.values with
    | nil => exact absurd hc hv
    | cons a l => exact ⟨a, l, rfl⟩
  obtain ⟨p0, ps, hpeq⟩ : ∃ p0 ps,
      item.properties CategoryCriteria.duration = p0 :: ps := by
    cases hc : item.properties CategoryCriteria.duration with
    | nil => exact absurd hc hpne
    | cons a l => exact ⟨a, l, rfl⟩
  obtain ⟨qv, hqv⟩ := hvnum v0 (hveq ▸ List.mem_cons_self v0 vs)
  obtain ⟨qp, hqp⟩ := hpnum p0 (hpeq ▸ List.mem_cons_self p0 ps)
  have hql_v : qlist c.values = qv :: qlist vs := by rw [hveq, hqv, qlist_cons_n]
  have hql_p : qlist (item.properties CategoryCriteria.duration) =
      qp :: qlist ps := by rw [hpeq, hqp, qlist_cons_n]
  simp [check_criteria, hcat, List.length_pos.mpr hv, hall, hnv, hnp,
    hql_v, hql_p, List.min?_cons, List.max?_cons, minOf, maxOf]

/-! ## Claim C8 -/

/-- C8 (confirmed): for every show item and every criterion whose
`values` list is empty, `check_criteria` returns `False` unconditionally
— for every category and for both polarities of `forbidden` (the
`len(values) > 0` guard falls through to `return False`). -/
theorem claim_C8 (item : ShowItem) (c : Criteria) (h : c.values = []) :
    check_criteria item c = some false :=
  check_criteria_empty_values item c h

theorem claim_C8_witness :
    check_criteria ⟨"w", fun _ => [Val.s "Action"]⟩
      ⟨CategoryCriteria.genre, [], true⟩ = some false :=
  claim_C8 _ _ rfl

/-! ## Claim C2 -/

/-- C2 counterexample: a duration criterion over a show whose declared
duration range contains a null value returns `False` for **both**
polarities of `forbidden` (the `all(...)` guard falls through to the
final `return False` before `forbidden` is ever consulted), so the
negation law fails on this concrete input. -/
theorem claim_C2_counterexample :
    check_criteria ⟨"s", fun _ => [Val.null]⟩
        ⟨CategoryCriteria.duration, [Val.n 10, Val.n 20], true⟩ ≠
      (check_criteria ⟨"s", fun _ => [Val.null]⟩
        ⟨CategoryCriteria.duration, [Val.n 10, Val.n 20], false⟩).map (fun b => !b) := by
  decide

/-- C2 (corrected): the negation law
`check_criteria(item, c with forbidden=true) =
 not check_criteria(item, c with forbidden=false)` holds for every
criterion with non-empty `values`, provided that for a `duration`
criterion the show's declared duration list is non-empty and entirely
numeric and the criterion values are numeric (otherwise both polarities
fall through to `False`, or both raise, and the law fails). -/
theorem claim_C2 (item : ShowItem) (c : Criteria) (hv : c.values ≠ [])
    (hdur : c.category = CategoryCriteria.duration →
      item.properties CategoryCriteria.duration ≠ [] ∧
      (∀ v ∈ item.properties CategoryCriteria.duration, ∃ q, v = Val.n q) ∧
      (∀ v ∈ c.values, ∃ q, v = Val.n q)) :
    check_criteria item { c with forbidden := true } =
      (check_criteria item { c with forbidden := false }).map (fun b => !b) := by
  by_cases hcat : c.category = CategoryCriteria.duration
  · obtain ⟨hpne, hpnum, hvnum⟩ := hdur hcat
    rw [check_criteria_duration_num item { c with forbidden := true } hcat hv hvnum hpne hpnum,
      check_criteria_duration_num item { c with forbidden := false } hcat hv hvnum hpne hpnum]
    simp
  · rw [check_criteria_categorical item { c with forbidden := true } hcat hv,
      check_criteria_categorical item { c with forbidden := false } hcat hv]
    simp

theorem claim_C2_witness :
    check_criteria ⟨"w", fun _ => [Val.s "Action"]⟩
        ⟨CategoryCriteria.genre, [Val.s "Action"], true⟩ =
      (check_criteria ⟨"w", fun _ => [Val.s "Action"]⟩
        ⟨CategoryCriteria.genre, [Val.s "Action"], false⟩).map (fun b => !b) :=
  claim_C2 ⟨"w", fun _ => [Val.s "Action"]⟩
    ⟨CategoryCriteria.genre, [Val.s "Action"], false⟩ (by decide)
    (by intro h; exact absurd h (by decide))

/-! ## Claim C3 -/

/-- C3 counterexample: for a `forbidden` duration criterion whose
underlying match is ill-defined because the show's declared range
contains a null, `check_criteria` returns `False`, not `True`: the null
makes the `all(...)` guard fail and control reaches `return False`
without ever negating. -/
theorem claim_C3_counterexample :
    check_criteria ⟨"s", fun _ => [Val.null, Val.n 30]⟩
        ⟨CategoryCriteria.duration, [Val.n 10, Val.n 20], true⟩ ≠ some true := by
  decide

/-- C3 (corrected): for a criterion with `forbidden=true` and non-empty
values, a **categorical** criterion (genre/type/language) against a show
with no property values for that category indeed evaluates to `False`
and negates to `True`; but a **duration** criterion against a show whose
declared duration range contains a null returns `False` (the negation is
never applied), contrary to the claim. -/
theorem claim_C3 (item : ShowItem) (c : Criteria) (hf : c.forbidden = true)
    (hv : c.values ≠ []) :
    (c.category ≠ CategoryCriteria.duration → item.properties c.category = [] →
       check_criteria item c = some true) ∧
    (c.category = CategoryCriteria.duration →
       Val.null ∈ item.properties CategoryCriteria.duration →
       check_criteria item c = some false) := by
  constructor
  · intro hcat hprops
    rw [check_criteria_categorical item c hcat hv, hprops, hf]
    simp
  · intro hcat hnull
    exact check_criteria_duration_null item c hcat hv hnull

theorem claim_C3_witness :
    check_criteria ⟨"w", fun _ => []⟩
      ⟨CategoryCriteria.genre, [Val.s "Action"], true⟩ = some true :=
  (claim_C3 ⟨"w", fun _ => []⟩ ⟨CategoryCriteria.genre, [Val.s "Action"], true⟩
    rfl (by decide)).1 (by decide) rfl

/-! ## Claim C6 -/

/-- C6 (confirmed): for a duration criterion with `forbidden=false` and
non-empty numeric values, against a show whose declared duration list is
non-empty (each entry a null or a number, per the data model),
`check_criteria` returns `True` iff all declared duration values are
non-null and `min(values) < min(range)` and `max(range) < max(values)`
(strict open-interval containment); if any declared value is null the
result is `False`. -/
theorem claim_C6 (item : ShowItem) (c : Criteria)
    (hcat : c.category = CategoryCriteria.duration) (hforb : c.forbidden = false)
    (hv : c.values ≠ []) (hvnum : ∀ v ∈ c.values, ∃ q, v = Val.n q)
    (hpne : item.properties CategoryCriteria.duration ≠ [])
    (hpshape : ∀ v ∈ item.properties CategoryCriteria.duration,
      v = Val.null ∨ ∃ q, v = Val.n q) :
    (check_criteria item c = some true ↔
      ((∀ v ∈ item.properties CategoryCriteria.duration, v ≠ Val.null) ∧
       minOf (qlist c.values) <
         minOf (qlist (item.properties CategoryCriteria.duration)) ∧
       maxOf (qlist (item.properties CategoryCriteria.duration)) <
         maxOf (qlist c.values))) ∧
    (Val.null ∈ item.properties CategoryCriteria.duration →
      check_criteria item c = some false) := by
  by_cases hnull : Val.null ∈ item.properties CategoryCriteria.duration
  · have hres := check_criteria_duration_null item c hcat hv hnull
    refine ⟨?_, fun _ => hres⟩
    rw [hres]
    constructor
    · intro h; exact absurd h (by simp)
    · rintro ⟨hno, -⟩; exact absurd rfl (hno Val.null hnull)
  · have hpnum : ∀ v ∈ item.properties CategoryCriteria.duration, ∃ q, v = Val.n q := by
      intro v hvm
      rcases hpshape v hvm with h | h
      · exact absurd (h ▸ hvm) hnull
      · exact h
    have hres := check_criteria_duration_num item c hcat hv hvnum hpne hpnum
    rw [hres, hforb]
    refine ⟨?_, fun h => absurd h hnull⟩
    constructor
    · intro h
      refine ⟨fun v hvm hveq => hnull (hveq ▸ hvm), ?_⟩
      simpa using h
    · rintro ⟨-, h1, h2⟩
      simp [h1, h2]

theorem claim_C6_witness :
    (check_criteria ⟨"w", fun _ => [Val.n 12, Val.n 15]⟩
        ⟨CategoryCriteria.duration, [Val.n 10, Val.n 20], false⟩ = some true ↔
      ((∀ v ∈ [Val.n 12, Val.n 15], v ≠ Val.null) ∧
       minOf (qlist [Val.n 10, Val.n 20]) < minOf (qlist [Val.n 12, Val.n 15]) ∧
       maxOf (qlist [Val.n 12, Val.n 15]) < maxOf (qlist [Val.n 10, Val.n 20]))) ∧
    (Val.null ∈ [Val.n 12, Val.n 15] →
      check_criteria ⟨"w", fun _ => [Val.n 12, Val.n 15]⟩
        ⟨CategoryCriteria.duration, [Val.n 10, Val.n 20], false⟩ = some false) :=
  claim_C6 ⟨"w", fun _ => [Val.n 12, Val.n 15]⟩
    ⟨CategoryCriteria.duration, [Val.n 10, Val.n 20], false⟩ rfl rfl (by decide)
    (by simp [List.mem_cons]) (by decide)
    (by simp [List.mem_cons])

/-! ## Claim C10 -/

/-- C10 counterexample: `check_criteria` is **not** total: for a
duration criterion with non-empty values against a show with no declared
duration values, the `all([])` guard vacuously passes and
`min(props)` raises `ValueError: min() arg is an empty sequence`
(modelled as `none`). -/
theorem claim_C10_counterexample :
    check_criteria ⟨"s", fun _ => []⟩
      ⟨CategoryCriteria.duration, [Val.n 10, Val.n 20], false⟩ = none := by
  decide

/-- C10 (corrected): `check_criteria` returns a boolean for every
criterion with non-empty values **except** in the duration branch with
usable-but-degenerate data: it is total for every non-duration category,
for duration criteria whose show range contains a null, and for duration
criteria with non-empty all-numeric show ranges and numeric values; a
duration criterion against a show with no declared duration values
raises. -/
theorem claim_C10 (item : ShowItem) (c : Criteria) (hv : c.values ≠ [])
    (h : c.category ≠ CategoryCriteria.duration ∨
         Val.null ∈ item.properties CategoryCriteria.duration ∨
         (item.properties CategoryCriteria.duration ≠ [] ∧
          (∀ v ∈ item.properties CategoryCriteria.duration, ∃ q, v = Val.n q) ∧
          (∀ v ∈ c.values, ∃ q, v = Val.n q))) :
    (check_criteria item c).isSome = true := by
  by_cases hcat : c.category = CategoryCriteria.duration
  · rcases h with h | h | ⟨hpne, hpnum, hvnum⟩
    · exact absurd hcat h
    · rw [check_criteria_duration_null item c hcat hv h]; rfl
    · rw [check_criteria_duration_num item c hcat hv hvnum hpne hpnum]; rfl
  · rw [check_criteria_categorical item c hcat hv]; rfl

theorem claim_C10_witness :
    (check_criteria ⟨"w", fun _ => []⟩
      ⟨CategoryCriteria.language, [Val.s "fre"], false⟩).isSome = true :=
  claim_C10 ⟨"w", fun _ => []⟩ ⟨CategoryCriteria.language, [Val.s "fre"], false⟩
    (by decide) (Or.inl (by decide))

/-! ## Claim C9 -/

/-- C9 (confirmed): when `ShowSelector.generate_schedules` completes on
a channel, every block's `shows` list has been curated down to at most
10 entries (`random.shuffle` then `items[:10]`). -/
theorem claim_C9 (show_list : List ShowItem)
    (shuffles : ℕ → List ShowItem → List ShowItem) (channel : GenChannel)
    (ch2 : GenChannel)
    (h : generate_schedules show_list shuffles channel = some ch2) :
    ∀ b ∈ ch2.blocks, b.shows.length ≤ 10 := by
  intro b hb
  simp only [generate_schedules, Option.bind_eq_bind, Option.bind_eq_some,
    Option.pure_def, Option.some.injEq] at h
  obtain ⟨blocks0, -, h2⟩ := h
  have hblocks : ch2.blocks = curate_channel shuffles blocks0 := by
    rw [← h2]
  rw [hblocks] at hb
  simp only [curate_channel, List.mem_map] at hb
  obtain ⟨bi, -, hbeq⟩ := hb
  rw [← hbeq]
  simp [List.length_take_le 10 (shuffles bi.1 bi.2.shows)]

/-! ## Except-monad toolkit -/

theorem bind_ok_eq {α β : Type} (a : α) (f : α → Except Unit β) :
    (Except.ok a >>= f) = f a := rfl

theorem bind_err_eq {α β : Type} (f : α → Except Unit β) :
    (Except.error () >>= f) = Except.error () := rfl

theorem pure_ok_eq {α : Type} (a : α) : (pure a : Except Unit α) = Except.ok a := rfl

theorem mapM_ok_exists {α β : Type} {f : α → Except Unit β} :
    ∀ {l : List α}, (∀ x ∈ l, ∃ y, f x = Except.ok y) →
      ∃ r, l.mapM f = Except.ok r := by
  intro l
  induction l with
  | nil => exact fun _ => ⟨[], rfl⟩
  | cons x xs ih =>
    intro h
    obtain ⟨y, hy⟩ := h x (List.mem_cons_self x xs)
    obtain ⟨r, hr⟩ := ih fun a ha => h a (List.mem_cons_of_mem _ ha)
    exact ⟨y :: r, by rw [List.mapM_cons, hy, bind_ok_eq, hr]; rfl⟩

theorem mapM_ok_mem {α β : Type} {f : α → Except Unit β} :
    ∀ {l : List α} {r : List β}, l.mapM f = Except.ok r →
      ∀ y ∈ r, ∃ x ∈ l, f x = Except.ok y := by
  intro l
  induction l with
  | nil =>
    intro r hr y hy
    rw [List.mapM_nil, pure_ok_eq] at hr
    cases hr
    cases hy
  | cons x xs ih =>
    intro r hr y hy
    rw [List.mapM_cons] at hr
    cases hfx : f x with
    | error e => rw [hfx, bind_err_eq] at hr; cases hr
    | ok y0 =>
      rw [hfx, bind_ok_eq] at hr
      cases hmx : xs.mapM f with
      | error e => rw [hmx, bind_err_eq] at hr; cases hr
      | ok r0 =>
        rw [hmx, bind_ok_eq, pure_ok_eq] at hr
        cases hr
        rcases List.mem_cons.mp hy with rfl | hy0
        · exact ⟨x, List.mem_cons_self x xs, hfx⟩
        · obtain ⟨a, ha, hfa⟩ := ih hmx y hy0
          exact ⟨a, List.mem_cons_of_mem _ ha, hfa⟩

theorem mapM_ok_length {α β : Type} {f : α → Except Unit β} :
    ∀ {l : List α} {r : List β}, l.mapM f = Except.ok r →
      r.length = l.length := by
  intro l
  induction l with
  | nil =>
    intro r hr
    rw [List.mapM_nil, pure_ok_eq] at hr
    cases hr
    rfl
  | cons x xs ih =>
    intro r hr
    rw [List.mapM_cons] at hr
    cases hfx : f x with
    | error e => rw [hfx, bind_err_eq] at hr; cases hr
    | ok y0 =>
      rw [hfx, bind_ok_eq] at hr
      cases hmx : xs.mapM f with
      | error e => rw [hmx, bind_err_eq] at hr; cases hr
      | ok r0 =>
        rw [hmx, bind_ok_eq, pure_ok_eq] at hr
        cases hr
        simp [ih hmx]

/-! ## Totality of the validator on its safe domain (claim C4) -/

theorem pyInStrSet?_ok {v : PyVal} (h : scalarOk v = true) (keys : List String) :
    ∃ b, pyInStrSet? v keys = Except.ok b := by
  cases v with
  | list xs => simp [scalarOk, isListV] at h
  | dict kvs => simp [scalarOk, isDictV] at h
  | str s => exact ⟨_, rfl⟩
  | null => exact ⟨_, rfl⟩
  | bool b => exact ⟨_, rfl⟩
  | int n => exact ⟨_, rfl⟩
  | float q => exact ⟨_, rfl⟩

theorem pyNum?_isSome_of_isNumV {v : PyVal} (h : isNumV v = true) :
    ∃ q, pyNum? v = some q := by
  cases v with
  | int n => exact ⟨_, rfl⟩
  | float q => exact ⟨_, rfl⟩
  | bool b => exact ⟨_, rfl⟩
  | null => simp [isNumV] at h
  | str s => simp [isNumV] at h
  | list xs => simp [isNumV] at h
  | dict kvs => simp [isNumV] at h

theorem critValuesErrs_ok {cat : PyVal} {vs : List PyVal}
    (hvs : vs.all scalarOk = true) (ch j k : ℕ) :
    ∃ r, critValuesErrs cat vs ch j k = Except.ok r := by
  rw [List.all_eq_true] at hvs
  unfold critValuesErrs
  by_cases hg : pyEq cat (.str "genre") = true
  · simp only [hg, if_true]
    obtain ⟨r, hr⟩ := mapM_ok_exists (l := vs) (f := fun v => do
        let known ← pyInStrSet? v GENRE_KEYS
        pure (if known then ([] : List VErr) else [.critGenreUnknown ch j k]))
      (fun v hv => by
        obtain ⟨b, hb⟩ := pyInStrSet?_ok (hvs v hv) GENRE_KEYS
        exact ⟨_, by simp only [hb, bind_ok_eq]; rfl⟩)
    exact ⟨r.flatten, by rw [hr, bind_ok_eq]; rfl⟩
  · simp only [hg, if_false, Bool.false_eq_true]
    by_cases ht : pyEq cat (.str "type") = true
    · simp only [ht, if_true]
      obtain ⟨r, hr⟩ := mapM_ok_exists (l := vs) (f := fun v => do
          let ok ← pyInStrSet? v ALLOWED_TYPES
          pure (if ok then ([] : List VErr) else [.critTypeInvalid ch j k]))
        (fun v hv => by
          obtain ⟨b, hb⟩ := pyInStrSet?_ok (hvs v hv) ALLOWED_TYPES
          exact ⟨_, by simp only [hb, bind_ok_eq]; rfl⟩)
      exact ⟨r.flatten, by rw [hr, bind_ok_eq]; rfl⟩
    · simp only [ht, if_false, Bool.false_eq_true]
      by_cases hl : pyEq cat (.str "language") = true
      · simp only [hl, if_true]
        exact ⟨_, rfl⟩
      · simp only [hl, if_false, Bool.false_eq_true]
        by_cases hd : pyEq cat (.str "duration") = true
        · simp only [hd, if_true]
          exact ⟨_, rfl⟩
        · simp only [hd, if_false, Bool.false_eq_true]
          exact ⟨_, rfl⟩

theorem validate_criterion_ok {crit : PyVal} (ch j k : ℕ)
    (h : critOk crit = true) :
    ∃ r, validate_criterion crit ch j k = Except.ok r := by
  cases crit with
  | dict kvs =>
    unfold critOk at h
    rw [Bool.and_eq_true] at h
    obtain ⟨hcat, hvals⟩ := h
    obtain ⟨bc, hbc⟩ := pyInStrSet?_ok hcat ALLOWED_CRITERIA_CATEGORIES
    have hvOk : ∃ r3, critValuesStage ((kvs.lookup "category").getD .null)
        ((kvs.lookup "values").getD .null) ch j k = Except.ok r3 := by
      unfold critValuesStage
      cases hv : (kvs.lookup "values").getD .null with
      | list vs =>
        rw [hv] at hvals
        have hvals' : vs.all scalarOk = true := hvals
        by_cases he : vs.isEmpty
        · exact ⟨[VErr.critValuesEmptyOrNotList ch j k], by simp [he, pure_ok_eq]⟩
        · obtain ⟨r3, hr3⟩ := @critValuesErrs_ok ((kvs.lookup "category").getD .null)
            vs hvals' ch j k
          exact ⟨r3, by simp [he, hr3]⟩
      | null => exact ⟨_, rfl⟩
      | bool b => exact ⟨_, rfl⟩
      | int n => exact ⟨_, rfl⟩
      | float q => exact ⟨_, rfl⟩
      | str s => exact ⟨_, rfl⟩
      | dict kvs2 => exact ⟨_, rfl⟩
    obtain ⟨r3, hr3⟩ := hvOk
    refine ⟨(if bc then ([] : List VErr) else [VErr.critCategoryInvalid ch j k]) ++
      (if isBoolV ((kvs.lookup "forbidden").getD .null) then ([] : List VErr)
        else [VErr.critForbiddenNotBool ch j k]) ++ r3, ?_⟩
    unfold validate_criterion
    rw [show pyGet? (PyVal.dict kvs) "category" .null =
        Except.ok ((kvs.lookup "category").getD .null) from rfl, bind_ok_eq, hbc,
      bind_ok_eq,
      show pyGet? (PyVal.dict kvs) "forbidden" .null =
        Except.ok ((kvs.lookup "forbidden").getD .null) from rfl, bind_ok_eq,
      show pyGet? (PyVal.dict kvs) "values" .null =
        Except.ok ((kvs.lookup "values").getD .null) from rfl, bind_ok_eq,
      hr3, bind_ok_eq]
    rfl
  | null => simp [critOk] at h
  | bool b => simp [critOk] at h
  | int n => simp [critOk] at h
  | float q => simp [critOk] at h
  | str s => simp [critOk] at h
  | list xs => simp [critOk] at h

theorem exists_ok_of_not_raises {α : Type} {e : Except Unit α}
    (h : raises e = false) : ∃ r, e = Except.ok r := by
  cases e with
  | error u => simp [raises] at h
  | ok r => exact ⟨r, rfl⟩

theorem missingKeyErrs_ok (kvs : List (String × PyVal)) (keys : List String)
    (mk : String → VErr) :
    ∃ r, missingKeyErrs (.dict kvs) keys mk = Except.ok r := by
  obtain ⟨r, hr⟩ := mapM_ok_exists (l := keys) (f := fun key => do
      let h ← pyHasKey? (PyVal.dict kvs) key
      pure (if h then ([] : List VErr) else [mk key]))
    (fun key _ => ⟨_, rfl⟩)
  exact ⟨r.flatten, by unfold missingKeyErrs; rw [hr, bind_ok_eq]; rfl⟩

theorem blockDurationErrs_ok {sf : PyVal} (bbe : Except Unit (ℚ × ℚ))
    (slot_count : PyVal) (ch j : ℕ)
    (hsf : (match sf with
      | PyVal.dict skvs => isNumV ((skvs.lookup "slot_duration").getD (.int 0))
      | _ => true) = true) :
    ∃ r, blockDurationErrs sf bbe slot_count ch j = Except.ok r := by
  unfold blockDurationErrs
  cases sf with
  | dict skvs =>
    obtain ⟨q, hq⟩ := pyNum?_isSome_of_isNumV (v := (skvs.lookup "slot_duration").getD (.int 0)) hsf
    cases bbe with
    | ok p =>
      obtain ⟨bq, eq2⟩ := p
      cases hsc : isIntV slot_count
      · exact ⟨_, rfl⟩
      · exact ⟨_, by simp only [hq]; rfl⟩
    | error e => cases hsc : isIntV slot_count <;> exact ⟨_, rfl⟩
  | null => cases bbe <;> cases hsc : isIntV slot_count <;> exact ⟨_, rfl⟩
  | bool b => cases bbe <;> cases hsc : isIntV slot_count <;> exact ⟨_, rfl⟩
  | int n => cases bbe <;> cases hsc : isIntV slot_count <;> exact ⟨_, rfl⟩
  | float q => cases bbe <;> cases hsc : isIntV slot_count <;> exact ⟨_, rfl⟩
  | str s => cases bbe <;> cases hsc : isIntV slot_count <;> exact ⟨_, rfl⟩
  | list xs => cases bbe <;> cases hsc : isIntV slot_count <;> exact ⟨_, rfl⟩

theorem blockCriteriaErrs_ok {criteria : PyVal} (ch j : ℕ)
    (hcr : (match criteria with
      | PyVal.list cs => cs.all critOk
      | _ => true) = true) :
    ∃ r, blockCriteriaErrs criteria ch j = Except.ok r := by
  unfold blockCriteriaErrs
  cases criteria with
  | list cs =>
    have hall : cs.all critOk = true := hcr
    rw [List.all_eq_true] at hall
    by_cases he : cs.isEmpty
    · exact ⟨[VErr.criteriaEmptyOrNotList ch j], by simp [he, pure_ok_eq]⟩
    · obtain ⟨r, hr⟩ := mapM_ok_exists (l := cs.enum)
        (f := fun kc => validate_criterion kc.2 ch j kc.1)
        (fun kc hkc => by
          have hmem : kc.2 ∈ cs :=
            List.get?_mem (List.mem_enum_iff_get?.mp hkc)
          exact validate_criterion_ok ch j kc.1 (hall kc.2 hmem))
      exact ⟨r.flatten, by simp only [he, if_false, Bool.false_eq_true, hr, bind_ok_eq]; rfl⟩
  | null => exact ⟨_, rfl⟩
  | bool b => exact ⟨_, rfl⟩
  | int n => exact ⟨_, rfl⟩
  | float q => exact ⟨_, rfl⟩
  | str s => exact ⟨_, rfl⟩
  | dict kvs => exact ⟨_, rfl⟩

theorem showsErrs_ok (kvs : List (String × PyVal)) (ch j : ℕ) :
    ∃ r, showsErrs (.dict kvs) ch j = Except.ok r := by
  unfold showsErrs
  cases hlk : kvs.lookup "shows" with
  | none =>
    refine ⟨[VErr.showsMissing ch j], ?_⟩
    rw [show pyHasKey? (PyVal.dict kvs) "shows" =
      Except.ok ((kvs.lookup "shows").isSome) from rfl, hlk, bind_ok_eq]
    rfl
  | some sv =>
    refine ⟨(if isListV sv then ([] : List VErr) else [.showsNotList ch j]), ?_⟩
    rw [show pyHasKey? (PyVal.dict kvs) "shows" =
      Except.ok ((kvs.lookup "shows").isSome) from rfl, hlk, bind_ok_eq]
    simp only [Option.isSome_some, if_true]
    rw [show pySub? (PyVal.dict kvs) "shows" = Except.ok sv by
      simp [pySub?, hlk], bind_ok_eq]
    rfl

theorem validate_block_ok {b : PyVal} (ch j : ℕ) (hb : blockOk b = true) :
    ∃ r, validate_block b ch j = Except.ok r := by
  cases b with
  | dict kvs =>
    unfold blockOk at hb
    rw [Bool.and_eq_true, Bool.and_eq_true, Bool.and_eq_true] at hb
    obtain ⟨⟨⟨-, -⟩, hsf⟩, hcr⟩ := hb
    obtain ⟨r1, hr1⟩ := missingKeyErrs_ok kvs
      ["criteria", "begin", "end", "slot_count", "slot_format", "shows"]
      (VErr.blkMissingKey ch j)
    obtain ⟨r5, hr5⟩ := @blockDurationErrs_ok ((kvs.lookup "slot_format").getD (.dict []))
      (beginEnd? (.dict kvs)) ((kvs.lookup "slot_count").getD .null) ch j hsf
    obtain ⟨r6, hr6⟩ := @blockCriteriaErrs_ok ((kvs.lookup "criteria").getD (.list []))
      ch j hcr
    obtain ⟨r7, hr7⟩ := showsErrs_ok kvs ch j
    refine exists_ok_of_not_raises ?_
    unfold validate_block
    rw [hr1, bind_ok_eq,
      show pyGet? (PyVal.dict kvs) "slot_count" .null =
        Except.ok ((kvs.lookup "slot_count").getD .null) from rfl, bind_ok_eq,
      show pyGet? (PyVal.dict kvs) "slot_format" (.dict []) =
        Except.ok ((kvs.lookup "slot_format").getD (.dict [])) from rfl, bind_ok_eq,
      hr5, bind_ok_eq,
      show pyGet? (PyVal.dict kvs) "criteria" (.list []) =
        Except.ok ((kvs.lookup "criteria").getD (.list [])) from rfl, bind_ok_eq,
      hr6, bind_ok_eq, hr7, bind_ok_eq]
    rfl
  | null => simp [blockOk] at hb
  | bool b => simp [blockOk] at hb
  | int n => simp [blockOk] at hb
  | float q => simp [blockOk] at hb
  | str s => simp [blockOk] at hb
  | list xs => simp [blockOk] at hb

/-! ## The validator's stable sort: membership and length -/

theorem insertKeyed_mem {y x : ℚ × PyVal} :
    ∀ {l : List (ℚ × PyVal)}, y ∈ insertKeyed x l → y = x ∨ y ∈ l := by
  intro l
  induction l with
  | nil => intro h; rcases List.mem_singleton.mp h with rfl; exact Or.inl rfl
  | cons z zs ih =>
    intro h
    unfold insertKeyed at h
    by_cases hle : z.1 ≤ x.1
    · rw [if_pos hle] at h
      rcases List.mem_cons.mp h with rfl | h2
      · exact Or.inr (List.mem_cons_self _ _)
      · rcases ih h2 with rfl | h3
        · exact Or.inl rfl
        · exact Or.inr (List.mem_cons_of_mem _ h3)
    · rw [if_neg hle] at h
      rcases List.mem_cons.mp h with rfl | h2
      · exact Or.inl rfl
      · exact Or.inr h2

theorem insertKeyed_length (x : ℚ × PyVal) :
    ∀ (l : List (ℚ × PyVal)), (insertKeyed x l).length = l.length + 1 := by
  intro l
  induction l with
  | nil => rfl
  | cons z zs ih =>
    unfold insertKeyed
    by_cases hle : z.1 ≤ x.1
    · rw [if_pos hle]
      simp [ih]
    · rw [if_neg hle]
      simp

theorem foldl_insertKeyed_mem {y : ℚ × PyVal} :
    ∀ (l acc : List (ℚ × PyVal)),
      y ∈ l.foldl (fun a x => insertKeyed x a) acc → y ∈ acc ∨ y ∈ l := by
  intro l
  induction l with
  | nil => intro acc h; exact Or.inl h
  | cons z zs ih =>
    intro acc h
    rcases ih (insertKeyed z acc) h with h2 | h2
    · rcases insertKeyed_mem h2 with rfl | h3
      · exact Or.inr (List.mem_cons_self _ _)
      · exact Or.inl h3
    · exact Or.inr (List.mem_cons_of_mem _ h2)

theorem foldl_insertKeyed_length :
    ∀ (l acc : List (ℚ × PyVal)),
      (l.foldl (fun a x => insertKeyed x a) acc).length = acc.length + l.length := by
  intro l
  induction l with
  | nil => intro acc; rfl
  | cons z zs ih =>
    intro acc
    show (zs.foldl (fun a x => insertKeyed x a) (insertKeyed z acc)).length = _
    rw [ih, insertKeyed_length]
    simp only [List.length_cons]
    omega

theorem sortKeyed_mem {y : ℚ × PyVal} {l : List (ℚ × PyVal)}
    (h : y ∈ sortKeyed l) : y ∈ l := by
  rcases foldl_insertKeyed_mem l [] h with h2 | h2
  · cases h2
  · exact h2

theorem sortKeyed_length (l : List (ℚ × PyVal)) :
    (sortKeyed l).length = l.length := by
  unfold sortKeyed
  rw [foldl_insertKeyed_length]
  simp

/-! ## Totality of the channel validator on its safe domain -/

theorem blockOk_dict {b : PyVal} (hb : blockOk b = true) :
    ∃ kvs, b = PyVal.dict kvs := by
  cases b with
  | dict kvs => exact ⟨kvs, rfl⟩
  | null => simp [blockOk] at hb
  | bool x => simp [blockOk] at hb
  | int n => simp [blockOk] at hb
  | float q => simp [blockOk] at hb
  | str s => simp [blockOk] at hb
  | list xs => simp [blockOk] at hb

theorem blockOk_key_num {b : PyVal} (key : String) (hb : blockOk b = true)
    (hkey : key = "begin" ∨ key = "end") :
    ∃ v q, pySub? b key = Except.ok v ∧ pyFloat? v = Except.ok q := by
  obtain ⟨kvs, rfl⟩ := blockOk_dict hb
  unfold blockOk at hb
  rw [Bool.and_eq_true, Bool.and_eq_true, Bool.and_eq_true] at hb
  obtain ⟨⟨⟨h1, h2⟩, -⟩, -⟩ := hb
  have hkv : (match kvs.lookup key with
      | some v => isNumV v
      | none => false) = true := by
    rcases hkey with rfl | rfl
    · exact h1
    · exact h2
  cases hlk : kvs.lookup key with
  | none => rw [hlk] at hkv; cases hkv
  | some v =>
    rw [hlk] at hkv
    obtain ⟨q, hq⟩ := pyNum?_isSome_of_isNumV hkv
    refine ⟨v, q, ?_, ?_⟩
    · simp [pySub?, hlk]
    · simp [pyFloat?, hq]

theorem sortBlocks?_ok {bs : List PyVal} (hall : ∀ b ∈ bs, blockOk b = true) :
    ∃ sorted, sortBlocks? bs = Except.ok sorted ∧
      sorted.length = bs.length ∧ ∀ b ∈ sorted, b ∈ bs := by
  have hf : ∀ b ∈ bs, (do
      let k ← pySub? b "begin"
      let kq ← pyFloat? k
      pure (kq, b) : Except Unit (ℚ × PyVal)) = Except.ok (((pyNum? b).getD 0 : ℚ), b) →
      True := fun _ _ _ => trivial
  clear hf
  have hstep : ∀ b ∈ bs, ∃ y, (do
      let k ← pySub? b "begin"
      let kq ← pyFloat? k
      pure (kq, b) : Except Unit (ℚ × PyVal)) = Except.ok y ∧ y.2 = b := by
    intro b hbmem
    obtain ⟨v, q, hv, hq⟩ := blockOk_key_num "begin" (hall b hbmem) (Or.inl rfl)
    exact ⟨(q, b), by rw [hv, bind_ok_eq, hq, bind_ok_eq]; rfl, rfl⟩
  obtain ⟨keyed, hkeyed⟩ := mapM_ok_exists (l := bs)
    (fun b hb => by obtain ⟨y, hy, -⟩ := hstep b hb; exact ⟨y, hy⟩)
  refine ⟨(sortKeyed keyed).map (fun p => p.2), ?_, ?_, ?_⟩
  · unfold sortBlocks?
    rw [hkeyed, bind_ok_eq]
  · rw [List.length_map, sortKeyed_length, mapM_ok_length hkeyed]
  · intro b hbmem
    obtain ⟨p, hp, rfl⟩ := List.mem_map.mp hbmem
    have hpk := sortKeyed_mem hp
    obtain ⟨x, hx, hfx⟩ := mapM_ok_mem hkeyed p hpk
    obtain ⟨y, hy, hy2⟩ := hstep x hx
    rw [hy] at hfx
    cases hfx
    rw [hy2]
    exact hx

theorem temporalErrs_ok {sorted : List PyVal} (idx : ℕ) (cb ce : ℚ)
    (hne : sorted ≠ []) (hall : ∀ b ∈ sorted, blockOk b = true) :
    ∃ r, temporalErrs idx cb ce sorted = Except.ok r := by
  obtain ⟨begins, hbegins⟩ := mapM_ok_exists (l := sorted)
    (f := fun b => do pyFloat? (← pySub? b "begin"))
    (fun b hb => by
      obtain ⟨v, q, hv, hq⟩ := blockOk_key_num "begin" (hall b hb) (Or.inl rfl)
      exact ⟨q, by simp only [hv, bind_ok_eq, hq]⟩)
  obtain ⟨ends, hends⟩ := mapM_ok_exists (l := sorted)
    (f := fun b => do pyFloat? (← pySub? b "end"))
    (fun b hb => by
      obtain ⟨v, q, hv, hq⟩ := blockOk_key_num "end" (hall b hb) (Or.inr rfl)
      exact ⟨q, by simp only [hv, bind_ok_eq, hq]⟩)
  obtain ⟨lb, hlb⟩ : ∃ lb, sorted.getLast? = some lb := by
    cases hgl : sorted.getLast? with
    | none => exact absurd (List.getLast?_eq_none_iff.mp hgl) hne
    | some lb => exact ⟨lb, rfl⟩
  obtain ⟨lv, lq, hlv, hlq⟩ :=
    blockOk_key_num "end" (hall lb (List.mem_of_getLast?_eq_some hlb)) (Or.inr rfl)
  refine exists_ok_of_not_raises ?_
  unfold temporalErrs
  rw [hbegins, bind_ok_eq, hlb]
  rw [show ((some lb).getD PyVal.null) = lb from rfl, hlv, bind_ok_eq, hlq,
    bind_ok_eq, hends]
  simp only [bind_ok_eq, pure_ok_eq, raises]

theorem temporalStage_ok {sorted : List PyVal} (bbe : Except Unit (ℚ × ℚ))
    (idx : ℕ) (hne : sorted ≠ []) (hall : ∀ b ∈ sorted, blockOk b = true) :
    ∃ r, temporalStage bbe idx sorted = Except.ok r := by
  unfold temporalStage
  cases bbe with
  | error e => exact ⟨_, rfl⟩
  | ok p =>
    obtain ⟨cb, ce⟩ := p
    exact temporalErrs_ok idx cb ce hne hall

theorem fillersErrs_ok {fillers : PyVal} (idx : ℕ)
    (hf : (match fillers with
      | PyVal.list gs => gs.all scalarOk
      | _ => true) = true) :
    ∃ r, fillersErrs fillers idx = Except.ok r := by
  unfold fillersErrs
  cases fillers with
  | list gs =>
    have hall : gs.all scalarOk = true := hf
    rw [List.all_eq_true] at hall
    obtain ⟨r, hr⟩ := mapM_ok_exists (l := gs) (f := fun g => do
        let known ← pyInStrSet? g GENRE_KEYS
        pure (if known then ([] : List VErr) else [.fillerUnknownGenre idx]))
      (fun g hg => by
        obtain ⟨b, hb⟩ := pyInStrSet?_ok (hall g hg) GENRE_KEYS
        exact ⟨_, by simp only [hb, bind_ok_eq]; rfl⟩)
    exact ⟨r.flatten, by simp only [hr, bind_ok_eq]; rfl⟩
  | null => exact ⟨_, rfl⟩
  | bool b => exact ⟨_, rfl⟩
  | int n => exact ⟨_, rfl⟩
  | float q => exact ⟨_, rfl⟩
  | str s => exact ⟨_, rfl⟩
  | dict kvs => exact ⟨_, rfl⟩

theorem validate_channel_ok {c : PyVal} (idx : ℕ) (hc : channelOk c = true) :
    ∃ r, validate_channel c idx = Except.ok r := by
  cases c with
  | dict kvs =>
    unfold channelOk at hc
    rw [Bool.and_eq_true] at hc
    obtain ⟨hfill, hblocks⟩ := hc
    obtain ⟨r1, hr1⟩ := missingKeyErrs_ok kvs
      ["name", "description", "begin", "end", "fillers", "blocks"]
      (VErr.chMissingKey idx)
    obtain ⟨r2, hr2⟩ := @fillersErrs_ok ((kvs.lookup "fillers").getD (.list []))
      idx hfill
    refine exists_ok_of_not_raises ?_
    unfold validate_channel
    rw [show pyGet? (PyVal.dict kvs) "name" (.str "?") =
        Except.ok ((kvs.lookup "name").getD (.str "?")) from rfl, bind_ok_eq,
      hr1, bind_ok_eq,
      show pyGet? (PyVal.dict kvs) "fillers" (.list []) =
        Except.ok ((kvs.lookup "fillers").getD (.list [])) from rfl, bind_ok_eq,
      hr2, bind_ok_eq,
      show pyGet? (PyVal.dict kvs) "blocks" (.list []) =
        Except.ok ((kvs.lookup "blocks").getD (.list [])) from rfl, bind_ok_eq]
    cases hbv : (kvs.lookup "blocks").getD (.list []) with
    | list bs =>
      rw [hbv] at hblocks
      have hball : ∀ b ∈ bs, blockOk b = true := List.all_eq_true.mp hblocks
      by_cases he : bs.isEmpty
      · simp [he, raises]
      · obtain ⟨sorted, hsort, hlen, hsub⟩ := sortBlocks?_ok hball
        have hsne : sorted ≠ [] := by
          intro hnil
          rw [hnil] at hlen
          have : bs = [] := List.length_eq_zero.mp hlen.symm
          rw [this] at he
          exact he rfl
        have hsall : ∀ b ∈ sorted, blockOk b = true := fun b hb => hball b (hsub b hb)
        obtain ⟨rt, hrt⟩ := temporalStage_ok (beginEnd? (PyVal.dict kvs)) idx hsne hsall
        obtain ⟨rb, hrb⟩ := mapM_ok_exists (l := sorted.enum)
          (f := fun jb => validate_block jb.2 idx jb.1)
          (fun jb hjb => by
            have hmem : jb.2 ∈ sorted := List.get?_mem (List.mem_enum_iff_get?.mp hjb)
            exact validate_block_ok idx jb.1 (hsall jb.2 hmem))
        simp only [he, if_false, Bool.false_eq_true, hsort, hrt, bind_ok_eq, hrb, raises]
    | null => simp [raises]
    | bool b => simp [raises]
    | int n => simp [raises]
    | float q => simp [raises]
    | str s => simp [raises]
    | dict kvs2 => simp [raises]
  | null => simp [channelOk] at hc
  | bool b => simp [channelOk] at hc
  | int n => simp [channelOk] at hc
  | float q => simp [channelOk] at hc
  | str s => simp [channelOk] at hc
  | list xs => simp [channelOk] at hc

theorem catChannelsErrs_ok (kvs : List (String × PyVal)) :
    ∃ r, catChannelsErrs (.dict kvs) = Except.ok r := by
  unfold catChannelsErrs
  cases hlk : kvs.lookup "channels" with
  | none =>
    refine ⟨[], ?_⟩
    rw [show pyHasKey? (PyVal.dict kvs) "channels" =
      Except.ok ((kvs.lookup "channels").isSome) from rfl, hlk, bind_ok_eq]
    rfl
  | some cv =>
    refine ⟨(if isListV cv then ([] : List VErr) else [VErr.catChannelsNotList]), ?_⟩
    rw [show pyHasKey? (PyVal.dict kvs) "channels" =
      Except.ok ((kvs.lookup "channels").isSome) from rfl, hlk, bind_ok_eq]
    simp only [Option.isSome_some, if_true]
    rw [show pySub? (PyVal.dict kvs) "channels" = Except.ok cv by
      simp [pySub?, hlk], bind_ok_eq]
    rfl

theorem validate_catalog_struct_ok (kvs : List (String × PyVal)) :
    ∃ r, validate_catalog_struct (.dict kvs) = Except.ok r := by
  obtain ⟨r1, hr1⟩ := missingKeyErrs_ok kvs ["name", "step", "channels"]
    VErr.catMissingKey
  obtain ⟨r2, hr2⟩ := catChannelsErrs_ok kvs
  refine ⟨r1 ++ r2, ?_⟩
  unfold validate_catalog_struct
  rw [hr1, bind_ok_eq, hr2, bind_ok_eq]
  rfl

/-! ## Claim C4 -/

/-- C4 counterexample: `validate_catalog` **does** raise on malformed
domain data: with a non-dict channel in the `channels` list,
`validate_channel` immediately evaluates `channel.get('name', '?')`
(inside the message-prefix f-string) and Python raises
`AttributeError: 'int' object has no attribute 'get'`. -/
theorem claim_C4_counterexample :
    raises (validate_catalog (.dict [("name", .str "c"), ("step", .int 0),
      ("channels", .list [.int 0])])) = true := by
  decide

/-- C4 (corrected): `validate_catalog` is total — returns a list of
error entries without raising — on every catalog in the safe domain
`domainOk`: the catalog is a dict whose `channels` entry (when a list)
holds only dict channels, each with hashable fillers (when a list) and
with blocks (when a list) that are dicts carrying numeric `begin` and
`end`, a numeric slot duration when `slot_format` is a dict, and dict
criteria with hashable `category`/`values` data.  Outside that domain it
can raise (see the counterexample: a non-dict channel). -/
theorem claim_C4 (catalog : PyVal) (h : domainOk catalog = true) :
    raises (validate_catalog catalog) = false := by
  cases catalog with
  | dict kvs =>
    have h2 : (match (kvs.lookup "channels").getD (.list []) with
      | PyVal.list chs => chs.all channelOk
      | _ => true) = true := h
    obtain ⟨r1, hr1⟩ := validate_catalog_struct_ok kvs
    unfold validate_catalog
    rw [hr1, bind_ok_eq]
    cases hcv : (kvs.lookup "channels").getD (.list []) with
    | list chs =>
      rw [hcv] at h2
      have hall : ∀ c ∈ chs, channelOk c = true := List.all_eq_true.mp h2
      obtain ⟨rs, hrs⟩ := mapM_ok_exists (l := chs.enum)
        (f := fun ic => validate_channel ic.2 ic.1)
        (fun ic hic => by
          have hmem : ic.2 ∈ chs := List.get?_mem (List.mem_enum_iff_get?.mp hic)
          exact validate_channel_ok ic.1 (hall ic.2 hmem))
      simp only [hcv, hrs, bind_ok_eq, pure_ok_eq, raises]
    | null => simp [hcv, raises, pure_ok_eq]
    | bool b => simp [hcv, raises, pure_ok_eq]
    | int n => simp [hcv, raises, pure_ok_eq]
    | float q => simp [hcv, raises, pure_ok_eq]
    | str s => simp [hcv, raises, pure_ok_eq]
    | dict kvs2 => simp [hcv, raises, pure_ok_eq]
  | null => simp [domainOk] at h
  | bool b => simp [domainOk] at h
  | int n => simp [domainOk] at h
  | float q => simp [domainOk] at h
  | str s => simp [domainOk] at h
  | list xs => simp [domainOk] at h

theorem claim_C4_witness :
    domainOk (.dict [("name", .str "c"), ("step", .int 0),
        ("channels", .list [.dict [("name", .str "ch"),
          ("begin", .float 6), ("end", .float 10), ("fillers", .list []),
          ("blocks", .list [.dict [("begin", .float 6), ("end", .float 10),
            ("slot_count", .int 1), ("slot_format", .dict []),
            ("criteria", .list []), ("shows", .list [])]])]])]) = true ∧
    raises (validate_catalog (.dict [("name", .str "c"), ("step", .int 0),
      ("channels", .list [.dict [("name", .str "ch"),
        ("begin", .float 6), ("end", .float 10), ("fillers", .list []),
        ("blocks", .list [.dict [("begin", .float 6), ("end", .float 10),
          ("slot_count", .int 1), ("slot_format", .dict []),
          ("criteria", .list []), ("shows", .list [])]])]])])) = false :=
  ⟨by decide, claim_C4 _ (by decide)⟩

/-! ## Claim C7: overlap and gap are both reported for a bad pair -/

theorem get?_zip_eq {α β : Type} :
    ∀ (l : List α) (m : List β) (i : ℕ) (a : α) (b : β),
      l.get? i = some a → m.get? i = some b → (l.zip m).get? i = some (a, b) := by
  intro l
  induction l with
  | nil => intro m i a b ha; cases ha
  | cons x xs ih =>
    intro m i a b ha hb
    cases m with
    | nil => cases hb
    | cons y ys =>
      cases i with
      | zero =>
        cases ha; cases hb; rfl
      | succ n =>
        exact ih ys n a b ha hb

theorem get?_drop_one {α : Type} (l : List α) (i : ℕ) :
    (l.drop 1).get? i = l.get? (i + 1) := by
  cases l <;> rfl

theorem insertEB_encode (x : EBlock) :
    ∀ (l : List EBlock),
      insertKeyed (x.beginAt, encodeEBlock x)
        (l.map fun b => (b.beginAt, encodeEBlock b)) =
      (insertEB x l).map fun b => (b.beginAt, encodeEBlock b) := by
  intro l
  induction l with
  | nil => rfl
  | cons y ys ih =>
    unfold insertEB
    rw [List.map_cons]
    unfold insertKeyed
    by_cases hle : y.beginAt ≤ x.beginAt
    · rw [if_pos hle, if_pos hle, ih, List.map_cons]
    · rw [if_neg hle, if_neg hle]
      rfl

theorem sortEB_encode_fold :
    ∀ (l acc : List EBlock),
      (l.map fun b => (b.beginAt, encodeEBlock b)).foldl
          (fun a x => insertKeyed x a) (acc.map fun b => (b.beginAt, encodeEBlock b)) =
      (l.foldl (fun a x => insertEB x a) acc).map fun b => (b.beginAt, encodeEBlock b) := by
  intro l
  induction l with
  | nil => intro acc; rfl
  | cons x xs ih =>
    intro acc
    rw [List.map_cons, List.foldl_cons, List.foldl_cons, insertEB_encode x acc,
      ih (insertEB x acc)]

theorem sortBlocks?_encode (blocks : List EBlock) :
    sortBlocks? (blocks.map encodeEBlock) =
      Except.ok ((sortEB blocks).map encodeEBlock) := by
  unfold sortBlocks?
  have hkeyed : (blocks.map encodeEBlock).mapM (fun b => do
      let k ← pySub? b "begin"
      let kq ← pyFloat? k
      pure (kq, b) : PyVal → Except Unit (ℚ × PyVal)) =
      Except.ok (blocks.map fun b => (b.beginAt, encodeEBlock b)) := by
    induction blocks with
    | nil => rfl
    | cons x xs ih =>
      rw [List.map_cons, List.mapM_cons,
        show (do
          let k ← pySub? (encodeEBlock x) "begin"
          let kq ← pyFloat? k
          pure (kq, encodeEBlock x) : Except Unit (ℚ × PyVal)) =
          Except.ok (x.beginAt, encodeEBlock x) from rfl, bind_ok_eq, ih,
        bind_ok_eq, List.map_cons]
      rfl
  rw [hkeyed, bind_ok_eq]
  unfold sortKeyed
  rw [show ([] : List (ℚ × PyVal)) = ([] : List EBlock).map
    (fun b => (b.beginAt, encodeEBlock b)) from rfl, sortEB_encode_fold]
  rw [List.map_map]
  rfl

theorem insertEB_mem {y x : EBlock} :
    ∀ {l : List EBlock}, y ∈ insertEB x l → y = x ∨ y ∈ l := by
  intro l
  induction l with
  | nil => intro h; rcases List.mem_singleton.mp h with rfl; exact Or.inl rfl
  | cons z zs ih =>
    intro h
    unfold insertEB at h
    by_cases hle : z.beginAt ≤ x.beginAt
    · rw [if_pos hle] at h
      rcases List.mem_cons.mp h with rfl | h2
      · exact Or.inr (List.mem_cons_self _ _)
      · rcases ih h2 with rfl | h3
        · exact Or.inl rfl
        · exact Or.inr (List.mem_cons_of_mem _ h3)
    · rw [if_neg hle] at h
      rcases List.mem_cons.mp h with rfl | h2
      · exact Or.inl rfl
      · exact Or.inr h2

theorem sortEB_mem {y : EBlock} {l : List EBlock} (h : y ∈ sortEB l) : y ∈ l := by
  suffices haux : ∀ (l acc : List EBlock),
      y ∈ l.foldl (fun a x => insertEB x a) acc → y ∈ acc ∨ y ∈ l by
    rcases haux l [] h with h2 | h2
    · cases h2
    · exact h2
  intro l
  induction l with
  | nil => intro acc h2; exact Or.inl h2
  | cons z zs ih =>
    intro acc h2
    rcases ih (insertEB z acc) h2 with h3 | h3
    · rcases insertEB_mem h3 with rfl | h4
      · exact Or.inr (List.mem_cons_self _ _)
      · exact Or.inl h4
    · exact Or.inr (List.mem_cons_of_mem _ h3)

theorem pairErrs_mem {ch : ℕ} :
    ∀ (l : List (ℚ × ℚ)) (i0 i : ℕ) (e b : ℚ),
      l.get? i = some (e, b) → e > b + tol →
      VErr.overlapPair ch (i0 + i) e b ∈ pairErrs ch i0 l ∧
      VErr.gapPair ch (i0 + i) e b ∈ pairErrs ch i0 l := by
  intro l
  induction l with
  | nil => intro i0 i e b h; cases h
  | cons p rest ih =>
    intro i0 i e b h hover
    cases i with
    | zero =>
      cases h
      have hgap : almost_equal e b = false := by
        unfold almost_equal
        rw [decide_eq_false_iff_not]
        intro habs
        have h1 : e - b ≤ tol := le_trans (le_abs_self _) habs
        linarith
      unfold pairErrs
      simp [hover, hgap]
    | succ n =>
      have hrec := ih (i0 + 1) n e b h hover
      have harith : i0 + 1 + n = i0 + (n + 1) := by omega
      rw [harith] at hrec
      unfold pairErrs
      exact ⟨List.mem_append_right _ hrec.1, List.mem_append_right _ hrec.2⟩

theorem encode_begins_mapM (l : List EBlock) :
    (l.map encodeEBlock).mapM (fun b => do pyFloat? (← pySub? b "begin")) =
      Except.ok (l.map fun b => b.beginAt) := by
  induction l with
  | nil => rfl
  | cons x xs ih =>
    rw [List.map_cons, List.mapM_cons,
      show (do pyFloat? (← pySub? (encodeEBlock x) "begin") :
        Except Unit ℚ) = Except.ok x.beginAt from rfl, bind_ok_eq, ih,
      bind_ok_eq, List.map_cons]
    rfl

theorem encode_ends_mapM (l : List EBlock) :
    (l.map encodeEBlock).mapM (fun b => do pyFloat? (← pySub? b "end")) =
      Except.ok (l.map fun b => b.endAt) := by
  induction l with
  | nil => rfl
  | cons x xs ih =>
    rw [List.map_cons, List.mapM_cons,
      show (do pyFloat? (← pySub? (encodeEBlock x) "end") :
        Except Unit ℚ) = Except.ok x.endAt from rfl, bind_ok_eq, ih,
      bind_ok_eq, List.map_cons]
    rfl

/-- C7 (confirmed): for a channel dict with numeric `begin`/`end`,
string fillers and well-shaped blocks, whenever two consecutive blocks
of the begin-sorted order satisfy `cur_end > nxt_begin + 1e-6`,
`validate_channel` reports **two distinct** error entries for that pair:
one overlap error and one gap error (the gap check `not
almost_equal(cur_end, nxt_begin)` is also tripped by an overlap larger
than the tolerance). -/
theorem claim_C7 (nm desc : String) (qb qe : ℚ) (fillers : List String)
    (blocks : List EBlock) (idx i : ℕ) (bi bj : EBlock)
    (hsafe : ∀ b ∈ blocks, blockOk (encodeEBlock b) = true)
    (hi : (sortEB blocks).get? i = some bi)
    (hj : (sortEB blocks).get? (i + 1) = some bj)
    (hover : bi.endAt > bj.beginAt + tol) :
    ∃ errs, validate_channel (encodeEChannel nm desc qb qe fillers blocks) idx =
        Except.ok errs ∧
      VErr.overlapPair idx i bi.endAt bj.beginAt ∈ errs ∧
      VErr.gapPair idx i bi.endAt bj.beginAt ∈ errs ∧
      VErr.overlapPair idx i bi.endAt bj.beginAt ≠
        VErr.gapPair idx i bi.endAt bj.beginAt := by
  have hsEBne : sortEB blocks ≠ [] := by
    intro hnil
    rw [hnil] at hi
    cases hi
  have hbne : blocks ≠ [] := by
    intro hnil
    rw [hnil] at hsEBne
    exact hsEBne rfl
  have hempty : (blocks.map encodeEBlock).isEmpty = false := by
    cases blocks with
    | nil => exact absurd rfl hbne
    | cons x xs => rfl
  obtain ⟨lastEB, hgl⟩ : ∃ lb, (sortEB blocks).getLast? = some lb := by
    cases hgl2 : (sortEB blocks).getLast? with
    | none => exact absurd (List.getLast?_eq_none_iff.mp hgl2) hsEBne
    | some lb => exact ⟨lb, rfl⟩
  have hglEnc : ((sortEB blocks).map encodeEBlock).getLast? =
      some (encodeEBlock lastEB) := by
    rw [List.getLast?_map, hgl]
    rfl
  have hfillall : (fillers.map PyVal.str).all scalarOk = true := by
    rw [List.all_eq_true]
    intro g hg
    obtain ⟨s, -, rfl⟩ := List.mem_map.mp hg
    rfl
  obtain ⟨r2, hr2⟩ := @fillersErrs_ok (.list (fillers.map PyVal.str)) idx
    (by exact hfillall)
  have hsallOk : ∀ b ∈ (sortEB blocks).map encodeEBlock, blockOk b = true := by
    intro b hb
    obtain ⟨eb, hebm, rfl⟩ := List.mem_map.mp hb
    exact hsafe eb (sortEB_mem hebm)
  obtain ⟨rb, hrb⟩ := mapM_ok_exists (l := ((sortEB blocks).map encodeEBlock).enum)
    (f := fun jb => validate_block jb.2 idx jb.1)
    (fun jb hjb => by
      have hmem : jb.2 ∈ (sortEB blocks).map encodeEBlock :=
        List.get?_mem (List.mem_enum_iff_get?.mp hjb)
      exact validate_block_ok idx jb.1 (hsallOk jb.2 hmem))
  have htemp : temporalErrs idx qb qe ((sortEB blocks).map encodeEBlock) =
      Except.ok
        ((match ((sortEB blocks).map fun b => b.beginAt).head? with
          | some fb => if almost_equal fb qb then []
                       else [VErr.firstBeginMismatch idx qb fb]
          | none => []) ++
         (if almost_equal lastEB.endAt qe then []
          else [VErr.lastEndMismatch idx qe lastEB.endAt]) ++
         pairErrs idx 0 (((sortEB blocks).map fun b => b.endAt).zip
           (((sortEB blocks).map fun b => b.beginAt).drop 1)) ++
         ((((sortEB blocks).map fun b => b.beginAt).zip
             ((sortEB blocks).map fun b => b.endAt)).enum.flatMap fun jp =>
           if jp.2.1 < qb - tol ∨ jp.2.2 > qe + tol then
             [VErr.blockOutOfRange idx jp.1]
           else [])) := by
    unfold temporalErrs
    rw [encode_begins_mapM, bind_ok_eq, hglEnc,
      show ((some (encodeEBlock lastEB)).getD PyVal.null) = encodeEBlock lastEB
        from rfl,
      show pySub? (encodeEBlock lastEB) "end" =
        Except.ok (.float lastEB.endAt) from rfl, bind_ok_eq,
      show pyFloat? (.float lastEB.endAt) = Except.ok lastEB.endAt from rfl,
      bind_ok_eq, encode_ends_mapM]
    simp only [bind_ok_eq]
    rfl
  have hpair : (((sortEB blocks).map fun b => b.endAt).zip
      (((sortEB blocks).map fun b => b.beginAt).drop 1)).get? i =
      some (bi.endAt, bj.beginAt) := by
    apply get?_zip_eq
    · rw [List.get?_map, hi]
      rfl
    · rw [get?_drop_one, List.get?_map, hj]
      rfl
  have hmem := @pairErrs_mem idx
    (((sortEB blocks).map fun b => b.endAt).zip
      (((sortEB blocks).map fun b => b.beginAt).drop 1)) 0 i
    bi.endAt bj.beginAt hpair hover
  rw [Nat.zero_add] at hmem
  refine ⟨(([] : List VErr) ++
      (if qb < qe then ([] : List VErr) else [VErr.chBeginEndOrder idx qb qe]) ++ r2) ++
      ((match ((sortEB blocks).map fun b => b.beginAt).head? with
        | some fb => if almost_equal fb qb then []
                     else [VErr.firstBeginMismatch idx qb fb]
        | none => []) ++
       (if almost_equal lastEB.endAt qe then []
        else [VErr.lastEndMismatch idx qe lastEB.endAt]) ++
       pairErrs idx 0 (((sortEB blocks).map fun b => b.endAt).zip
         (((sortEB blocks).map fun b => b.beginAt).drop 1)) ++
       ((((sortEB blocks).map fun b => b.beginAt).zip
           ((sortEB blocks).map fun b => b.endAt)).enum.flatMap fun jp =>
         if jp.2.1 < qb - tol ∨ jp.2.2 > qe + tol then
           [VErr.blockOutOfRange idx jp.1]
         else [])) ++ rb.flatten, ?_, ?_, ?_, by simp⟩
  · unfold validate_channel
    rw [show pyGet? (encodeEChannel nm desc qb qe fillers blocks) "name" (.str "?") =
        Except.ok (.str nm) from rfl, bind_ok_eq,
      show missingKeyErrs (encodeEChannel nm desc qb qe fillers blocks)
        ["name", "description", "begin", "end", "fillers", "blocks"]
        (VErr.chMissingKey idx) = Except.ok [] from rfl, bind_ok_eq,
      show pyGet? (encodeEChannel nm desc qb qe fillers blocks) "fillers"
        (.list []) = Except.ok (.list (fillers.map PyVal.str)) from rfl,
      bind_ok_eq, hr2, bind_ok_eq,
      show pyGet? (encodeEChannel nm desc qb qe fillers blocks) "blocks"
        (.list []) = Except.ok (.list (blocks.map encodeEBlock)) from rfl,
      bind_ok_eq]
    simp only [hempty, Bool.false_eq_true, if_false, sortBlocks?_encode blocks]
    unfold temporalStage
    rw [show beginEnd? (encodeEChannel nm desc qb qe fillers blocks) =
      Except.ok (qb, qe) from rfl]
    simp only [htemp]
    rw [bind_ok_eq, hrb, bind_ok_eq]
  · simp only [List.mem_append]
    tauto
  · simp only [List.mem_append]
    tauto

section
attribute [local semireducible] Rat.add Rat.sub Rat.mul Rat.inv

theorem claim_C7_witness :
    ∃ errs, validate_channel (encodeEChannel "c" "d" 7 10 []
        [⟨7, 9, []⟩, ⟨8, 10, []⟩]) 0 = Except.ok errs ∧
      VErr.overlapPair 0 0 9 8 ∈ errs ∧ VErr.gapPair 0 0 9 8 ∈ errs ∧
      VErr.overlapPair 0 0 9 8 ≠ VErr.gapPair 0 0 9 8 :=
  claim_C7 "c" "d" 7 10 [] [⟨7, 9, []⟩, ⟨8, 10, []⟩] 0 0 ⟨7, 9, []⟩ ⟨8, 10, []⟩
    (by decide) rfl rfl (by decide)

end

theorem claim_C9_witness :
    ({ beginAt := 6, endAt := 7, slot_count := 1, slot_format := ⟨45, 52, 60⟩,
       criteria := [], shows := [] } : GenBlock).shows.length ≤ 10 :=
  claim_C9 [] (fun _ l => l)
    { beginAt := 6, endAt := 7, available_slot_format := [], available_slot_count := [],
      blocks := [{ beginAt := 6, endAt := 7, slot_count := 1, slot_format := ⟨45, 52, 60⟩,
                   criteria := [], shows := [] }] } _ rfl
    _ (List.mem_singleton.mpr rfl)

/-! ## The block-placement loop: chosen shapes come from the pools -/

theorem foldl_minBy_mem (f : SlotFormat → ℚ) :
    ∀ (xs : List SlotFormat) (x : SlotFormat),
      xs.foldl (fun a b => if f b < f a then b else a) x ∈ x :: xs := by
  intro xs
  induction xs with
  | nil => intro x; exact List.mem_singleton.mpr rfl
  | cons y ys ih =>
    intro x
    rw [List.foldl_cons]
    by_cases hc : f y < f x
    · rw [if_pos hc]
      rcases List.mem_cons.mp (ih y) with h | h
      · rw [h]
        exact List.mem_cons_of_mem _ (List.mem_cons_self _ _)
      · exact List.mem_cons_of_mem _ (List.mem_cons_of_mem _ h)
    · rw [if_neg hc]
      rcases List.mem_cons.mp (ih x) with h | h
      · rw [h]
        exact List.mem_cons_self _ _
      · exact List.mem_cons_of_mem _ (List.mem_cons_of_mem _ h)

theorem foldl_minBy_le (f : SlotFormat → ℚ) :
    ∀ (xs : List SlotFormat) (x : SlotFormat) (y : SlotFormat), y ∈ x :: xs →
      f (xs.foldl (fun a b => if f b < f a then b else a) x) ≤ f y := by
  intro xs
  induction xs with
  | nil =>
    intro x y hy
    rcases List.mem_singleton.mp hy with rfl
    exact le_refl _
  | cons z zs ih =>
    intro x y hy
    rw [List.foldl_cons]
    have hstart : f (if f z < f x then z else x) ≤ f x ∧
        f (if f z < f x then z else x) ≤ f z := by
      by_cases hc : f z < f x
      · rw [if_pos hc]; exact ⟨le_of_lt hc, le_refl _⟩
      · rw [if_neg hc]; exact ⟨le_refl _, le_of_not_lt hc⟩
    rcases List.mem_cons.mp hy with rfl | hy2
    · exact le_trans (ih _ _ (List.mem_cons_self _ _)) hstart.1
    · rcases List.mem_cons.mp hy2 with rfl | hy3
      · exact le_trans (ih _ _ (List.mem_cons_self _ _)) hstart.2
      · exact ih _ _ (List.mem_cons_of_mem _ hy3)

theorem pyMinBy_mem (f : SlotFormat → ℚ) (d : SlotFormat) {l : List SlotFormat}
    (h : l ≠ []) : pyMinBy f d l ∈ l := by
  cases l with
  | nil => exact absurd rfl h
  | cons x xs => exact foldl_minBy_mem f xs x

theorem pyMinBy_le (f : SlotFormat → ℚ) (d : SlotFormat) {l : List SlotFormat}
    {y : SlotFormat} (hy : y ∈ l) : f (pyMinBy f d l) ≤ f y := by
  cases l with
  | nil => cases hy
  | cons x xs => exact foldl_minBy_le f xs x y hy

theorem foldl_minNat_mem :
    ∀ (xs : List ℕ) (x : ℕ), xs.foldl Nat.min x ∈ x :: xs := by
  intro xs
  induction xs with
  | nil => intro x; exact List.mem_singleton.mpr rfl
  | cons y ys ih =>
    intro x
    rw [List.foldl_cons]
    rcases List.mem_cons.mp (ih (Nat.min x y)) with h | h
    · rw [h, show Nat.min x y = if x ≤ y then x else y from rfl]
      by_cases hc : x ≤ y
      · rw [if_pos hc]
        exact List.mem_cons_self _ _
      · rw [if_neg hc]
        exact List.mem_cons_of_mem _ (List.mem_cons_self _ _)
    · exact List.mem_cons_of_mem _ (List.mem_cons_of_mem _ h)

theorem pyMinNat_mem (d : ℕ) {l : List ℕ} (h : l ≠ []) : pyMinNat d l ∈ l := by
  cases l with
  | nil => exact absurd rfl h
  | cons x xs => exact foldl_minNat_mem xs x

theorem getD_mod_mem {α : Type} {l : List α} (h : l ≠ []) (i : ℕ) (d : α) :
    l.getD (i % l.length) d ∈ l := by
  have hlen : 0 < l.length := List.length_pos.mpr h
  have hlt : i % l.length < l.length := Nat.mod_lt i hlen
  rw [List.getD_eq_getElem?_getD, List.getElem?_eq_getElem hlt]
  exact List.getElem_mem hlt

theorem chosenFormat_mem (fmts : List SlotFormat) (force : Bool) (p : ℕ)
    (h : fmts ≠ []) : chosenFormat fmts force p ∈ fmts := by
  unfold chosenFormat
  by_cases hf : force = true
  · rw [if_pos hf]; exact pyMinBy_mem _ _ h
  · rw [if_neg hf]; exact getD_mod_mem h p default

theorem chosenCount_mem (counts : List ℕ) (force : Bool) (p : ℕ)
    (h : counts ≠ []) : chosenCount counts force p ∈ counts := by
  unfold chosenCount
  by_cases hf : force = true
  · rw [if_pos hf]; exact pyMinNat_mem 1 h
  · rw [if_neg hf]; exact getD_mod_mem h p 1

theorem generate_block_eq (fmts : List SlotFormat) (counts : List ℕ)
    (channelEnd beginAt : ℚ) (force : Bool) (pick : ℕ × ℕ)
    (crits : List Criteria) :
    generate_block fmts counts channelEnd beginAt force pick crits =
      (let sf := chosenFormat fmts force pick.1
       let sc := chosenCount counts force pick.2
       let endD := beginAt + sf.slot_duration * (sc : ℚ) / 60
       if endD ≠ normalize_hour_to_day endD ∧
           normalize_hour_to_day endD > channelEnd then none
       else some { beginAt := beginAt, endAt := endD, slot_count := sc,
                   slot_format := sf, criteria := crits, shows := [] }) := by
  unfold generate_block chosenFormat chosenCount minute_to_float_hour
  rfl

theorem generate_block_some_fields {fmts : List SlotFormat} {counts : List ℕ}
    {channelEnd beginAt : ℚ} {force : Bool} {pick : ℕ × ℕ}
    {crits : List Criteria} {b : GenBlock}
    (h : generate_block fmts counts channelEnd beginAt force pick crits = some b) :
    b.beginAt = beginAt ∧
    b.slot_format = chosenFormat fmts force pick.1 ∧
    b.slot_count = chosenCount counts force pick.2 ∧
    b.endAt = beginAt + b.slot_format.slot_duration * (b.slot_count : ℚ) / 60 := by
  rw [generate_block_eq] at h
  by_cases hc : (beginAt + (chosenFormat fmts force pick.1).slot_duration *
      ((chosenCount counts force pick.2) : ℚ) / 60 ≠
        normalize_hour_to_day (beginAt +
          (chosenFormat fmts force pick.1).slot_duration *
          ((chosenCount counts force pick.2) : ℚ) / 60) ∧
      normalize_hour_to_day (beginAt +
        (chosenFormat fmts force pick.1).slot_duration *
        ((chosenCount counts force pick.2) : ℚ) / 60) > channelEnd)
  · rw [if_pos hc] at h
    cases h
  · rw [if_neg hc] at h
    cases h
    exact ⟨rfl, rfl, rfl, rfl⟩

theorem generate_block_some_bound {fmts : List SlotFormat} {counts : List ℕ}
    {channelEnd beginAt : ℚ} {force : Bool} {pick : ℕ × ℕ}
    {crits : List Criteria} {b : GenBlock}
    (h : generate_block fmts counts channelEnd beginAt force pick crits = some b) :
    b.endAt ≤ loopBound channelEnd := by
  obtain ⟨-, hsf, hsc, hend⟩ := generate_block_some_fields h
  rw [generate_block_eq] at h
  set endD := beginAt + (chosenFormat fmts force pick.1).slot_duration *
    ((chosenCount counts force pick.2) : ℚ) / 60 with hendD
  by_cases hc : (endD ≠ normalize_hour_to_day endD ∧
      normalize_hour_to_day endD > channelEnd)
  · rw [if_pos hc] at h
    cases h
  · rw [if_neg hc] at h
    have hbend : b.endAt = endD := by cases h; rfl
    rw [hbend]
    push_neg at hc
    unfold normalize_hour_to_day at hc
    by_cases hlt : endD < 24
    · calc endD ≤ 24 := le_of_lt hlt
        _ ≤ loopBound channelEnd := le_max_left _ _
    · have h24 : ¬ (endD = if endD < 24 then endD else endD - 24) := by
        rw [if_neg hlt]
        intro habs
        have : (24 : ℚ) = 0 := by linarith
        norm_num at this
      have hle := hc (by rw [if_neg hlt] at h24 ⊢; exact fun hh => h24 hh)
      rw [if_neg hlt] at hle
      have : endD ≤ 24 + channelEnd := by linarith
      calc endD ≤ 24 + channelEnd := this
        _ ≤ loopBound channelEnd := le_max_right _ _

/-! ## The `set_blocks` loop: invariants, termination, exit condition -/

theorem ChainFrom_snoc {b : GenBlock} :
    ∀ {b0 cur : ℚ} {l : List GenBlock}, ChainFrom b0 l cur → b.beginAt = cur →
      ChainFrom b0 (l ++ [b]) b.endAt := by
  intro b0 cur l
  induction l generalizing b0 with
  | nil =>
    intro h hb
    unfold ChainFrom at h
    exact ⟨hb.trans h, rfl⟩
  | cons x xs ih =>
    intro h hb
    obtain ⟨hx, hrest⟩ := h
    exact ⟨hx, ih hrest hb⟩

theorem set_blocks_go_succ (fmts : List SlotFormat) (counts : List ℕ)
    (availProps : List (CategoryCriteria × List Val)) (channelEnd : ℚ)
    (picks : ℕ → ℕ × ℕ) (sel : ℕ → CategoryCriteria → List Val → List Val)
    (fuel i : ℕ) (beginAt : ℚ) (blocks : List GenBlock) (force : Bool)
    (retry : ℕ) :
    set_blocks_go fmts counts availProps channelEnd picks sel (fuel + 1) i
        beginAt blocks force retry =
      match generate_block fmts counts channelEnd beginAt force (picks i)
          (select_block_criteria availProps (chosenFormat fmts force (picks i).1)
            (sel i)) with
      | some block => set_blocks_go fmts counts availProps channelEnd picks sel
          fuel (i + 1) block.endAt (blocks ++ [block]) force 0
      | none =>
        if retry + 1 > 1 then some ⟨blocks, true, retry + 1⟩
        else set_blocks_go fmts counts availProps channelEnd picks sel
          fuel (i + 1) beginAt blocks true (retry + 1) := by
  rfl

theorem set_blocks_go_spec (fmts : List SlotFormat) (counts : List ℕ)
    (availProps : List (CategoryCriteria × List Val)) (channelEnd : ℚ)
    (picks : ℕ → ℕ × ℕ) (sel : ℕ → CategoryCriteria → List Val → List Val)
    (b0 : ℚ) (hf : fmts ≠ []) (hc : counts ≠ []) :
    ∀ (fuel i : ℕ) (beginAt : ℚ) (blocks : List GenBlock) (force : Bool)
      (retry : ℕ) (res : SetBlocksResult),
      set_blocks_go fmts counts availProps channelEnd picks sel fuel i beginAt
        blocks force retry = some res →
      retry ≤ 1 →
      ChainFrom b0 blocks beginAt →
      (∀ b ∈ blocks, WFBlock fmts counts b) →
      (∃ cur, ChainFrom b0 res.blocks cur ∧
        ∀ b ∈ res.blocks, WFBlock fmts counts b) ∧
      res.retry = 2 ∧ res.force_minimum = true := by
  intro fuel
  induction fuel with
  | zero =>
    intro i beginAt blocks force retry res h
    cases h
  | succ n ih =>
    intro i beginAt blocks force retry res h hretry hchain hwf
    rw [set_blocks_go_succ] at h
    cases hgen : generate_block fmts counts channelEnd beginAt force (picks i)
        (select_block_criteria availProps (chosenFormat fmts force (picks i).1)
          (sel i)) with
    | some block =>
      rw [hgen] at h
      obtain ⟨hbb, hbsf, hbsc, hbend⟩ := generate_block_some_fields hgen
      have hwfb : WFBlock fmts counts block :=
        ⟨by rw [hbb]; exact hbend, hbsf ▸ chosenFormat_mem fmts force (picks i).1 hf,
          hbsc ▸ chosenCount_mem counts force (picks i).2 hc⟩
      exact ih (i + 1) block.endAt (blocks ++ [block]) force 0 res h
        (by omega) (ChainFrom_snoc hchain hbb)
        (fun b hb => by
          rcases List.mem_append.mp hb with h2 | h2
          · exact hwf b h2
          · rcases List.mem_singleton.mp h2 with rfl
            exact hwfb)
    | none =>
      rw [hgen] at h
      cases hr1 : retry with
      | zero =>
        rw [hr1] at h
        rw [if_neg (by omega)] at h
        exact ih (i + 1) beginAt blocks true 1 res h (by omega) hchain hwf
      | succ m =>
        have hm : m = 0 := by omega
        rw [hr1, hm] at h
        rw [if_pos (by omega)] at h
        cases h
        exact ⟨⟨beginAt, hchain, hwf⟩, rfl, rfl⟩

theorem minStep_pos {fmts : List SlotFormat} (hf : fmts ≠ [])
    (hpos : ∀ f ∈ fmts, 0 < f.slot_duration) : 0 < minStep fmts := by
  unfold minStep
  have hmem := pyMinBy_mem (fun s => s.slot_duration) default hf
  have := hpos _ hmem
  positivity

theorem generate_block_none_at_top {fmts : List SlotFormat} {counts : List ℕ}
    {channelEnd beginAt : ℚ} (force : Bool) (pick : ℕ × ℕ)
    (crits : List Criteria) (hf : fmts ≠ []) (hc : counts ≠ [])
    (hpos : ∀ f ∈ fmts, 0 < f.slot_duration) (hcnt : ∀ c ∈ counts, 1 ≤ c)
    (htop : loopBound channelEnd ≤ beginAt) :
    generate_block fmts counts channelEnd beginAt force pick crits = none := by
  rw [generate_block_eq]
  have hsf := chosenFormat_mem fmts force pick.1 hf
  have hsc := chosenCount_mem counts force pick.2 hc
  have hsd : 0 < (chosenFormat fmts force pick.1).slot_duration := hpos _ hsf
  have hscq : (1 : ℚ) ≤ ((chosenCount counts force pick.2 : ℕ) : ℚ) := by
    exact_mod_cast hcnt _ hsc
  have hdur : 0 < (chosenFormat fmts force pick.1).slot_duration *
      ((chosenCount counts force pick.2 : ℕ) : ℚ) / 60 := by
    apply div_pos _ (by norm_num)
    calc (0 : ℚ) < (chosenFormat fmts force pick.1).slot_duration := hsd
      _ = (chosenFormat fmts force pick.1).slot_duration * 1 := by ring
      _ ≤ _ := by
        apply mul_le_mul_of_nonneg_left hscq (le_of_lt hsd)
  set endD := beginAt + (chosenFormat fmts force pick.1).slot_duration *
    ((chosenCount counts force pick.2 : ℕ) : ℚ) / 60 with hendD
  have hB24 : (24 : ℚ) ≤ loopBound channelEnd := le_max_left _ _
  have hBce : 24 + channelEnd ≤ loopBound channelEnd := le_max_right _ _
  have hgt : loopBound channelEnd < endD := by
    rw [hendD]
    linarith
  have hn24 : ¬ endD < 24 := by linarith
  rw [if_pos]
  constructor
  · unfold normalize_hour_to_day
    rw [if_neg hn24]
    intro habs
    have : (24 : ℚ) = 0 := by linarith
    norm_num at this
  · unfold normalize_hour_to_day
    rw [if_neg hn24]
    linarith

theorem generate_block_some_step {fmts : List SlotFormat} {counts : List ℕ}
    {channelEnd beginAt : ℚ} {force : Bool} {pick : ℕ × ℕ}
    {crits : List Criteria} {b : GenBlock}
    (h : generate_block fmts counts channelEnd beginAt force pick crits = some b)
    (hf : fmts ≠ []) (hc : counts ≠ [])
    (hpos : ∀ f ∈ fmts, 0 < f.slot_duration) (hcnt : ∀ c ∈ counts, 1 ≤ c) :
    beginAt + minStep fmts ≤ b.endAt := by
  obtain ⟨hbb, hbsf, hbsc, hbend⟩ := generate_block_some_fields h
  rw [hbend]
  have hsfm : b.slot_format ∈ fmts := hbsf ▸ chosenFormat_mem fmts force pick.1 hf
  have hscm : b.slot_count ∈ counts := hbsc ▸ chosenCount_mem counts force pick.2 hc
  have h1 : (pyMinBy (fun s => s.slot_duration) default fmts).slot_duration ≤
      b.slot_format.slot_duration := pyMinBy_le _ _ hsfm
  have hsd : 0 < b.slot_format.slot_duration := hpos _ hsfm
  have hscq : (1 : ℚ) ≤ (b.slot_count : ℚ) := by exact_mod_cast hcnt _ hscm
  have h2 : b.slot_format.slot_duration ≤
      b.slot_format.slot_duration * (b.slot_count : ℚ) := by nlinarith
  unfold minStep
  linarith

theorem loopMeasure_zero {fmts : List SlotFormat} {channelEnd q : ℚ}
    (h : loopMeasure fmts channelEnd q = 0) (hm : 0 < minStep fmts) :
    loopBound channelEnd ≤ q := by
  unfold loopMeasure at h
  have h1 : ⌈(loopBound channelEnd - q) / minStep fmts⌉ ≤ 0 := by omega
  have h2 : (loopBound channelEnd - q) / minStep fmts ≤ (0 : ℚ) := by
    exact_mod_cast Int.ceil_le.mp h1
  have h3 : loopBound channelEnd - q ≤ 0 * minStep fmts := (div_le_iff hm).mp h2
  linarith

theorem loopMeasure_step {fmts : List SlotFormat} {channelEnd : ℚ}
    (hm : 0 < minStep fmts) {q q' : ℚ} (hstep : q + minStep fmts ≤ q')
    {k : ℕ} (hk : loopMeasure fmts channelEnd q ≤ k + 1) :
    loopMeasure fmts channelEnd q' ≤ k := by
  unfold loopMeasure at hk ⊢
  have hdiv : (loopBound channelEnd - q') / minStep fmts ≤
      (loopBound channelEnd - q) / minStep fmts - 1 := by
    have he : (loopBound channelEnd - q) / minStep fmts - 1 =
        (loopBound channelEnd - q - minStep fmts) / minStep fmts := by
      field_simp
    rw [he]
    exact (div_le_div_right hm).mpr (by linarith)
  have hceil : ⌈(loopBound channelEnd - q') / minStep fmts⌉ ≤
      ⌈(loopBound channelEnd - q) / minStep fmts⌉ - 1 := by
    calc ⌈(loopBound channelEnd - q') / minStep fmts⌉
        ≤ ⌈(loopBound channelEnd - q) / minStep fmts - 1⌉ := Int.ceil_le_ceil hdiv
      _ = ⌈(loopBound channelEnd - q) / minStep fmts⌉ - 1 := by
          exact_mod_cast Int.ceil_sub_int _ 1
  omega

theorem set_blocks_go_ok {fmts : List SlotFormat} {counts : List ℕ}
    {availProps : List (CategoryCriteria × List Val)} {channelEnd : ℚ}
    {picks : ℕ → ℕ × ℕ} {sel : ℕ → CategoryCriteria → List Val → List Val}
    {fuel i : ℕ} {beginAt : ℚ} {blocks : List GenBlock} {force : Bool}
    {retry : ℕ} {b : GenBlock}
    (hgen : generate_block fmts counts channelEnd beginAt force (picks i)
      (select_block_criteria availProps (chosenFormat fmts force (picks i).1)
        (sel i)) = some b) :
    set_blocks_go fmts counts availProps channelEnd picks sel (fuel + 1) i
        beginAt blocks force retry =
      set_blocks_go fmts counts availProps channelEnd picks sel fuel (i + 1)
        b.endAt (blocks ++ [b]) force 0 := by
  rw [set_blocks_go_succ, hgen]

theorem set_blocks_go_fail {fmts : List SlotFormat} {counts : List ℕ}
    {availProps : List (CategoryCriteria × List Val)} {channelEnd : ℚ}
    {picks : ℕ → ℕ × ℕ} {sel : ℕ → CategoryCriteria → List Val → List Val}
    {fuel i : ℕ} {beginAt : ℚ} {blocks : List GenBlock} {force : Bool}
    {retry : ℕ}
    (hgen : generate_block fmts counts channelEnd beginAt force (picks i)
      (select_block_criteria availProps (chosenFormat fmts force (picks i).1)
        (sel i)) = none) :
    set_blocks_go fmts counts availProps channelEnd picks sel (fuel + 1) i
        beginAt blocks force retry =
      if retry + 1 > 1 then some ⟨blocks, true, retry + 1⟩
      else set_blocks_go fmts counts availProps channelEnd picks sel fuel
        (i + 1) beginAt blocks true (retry + 1) := by
  rw [set_blocks_go_succ, hgen]

theorem set_blocks_go_term (fmts : List SlotFormat) (counts : List ℕ)
    (availProps : List (CategoryCriteria × List Val)) (channelEnd : ℚ)
    (picks : ℕ → ℕ × ℕ) (sel : ℕ → CategoryCriteria → List Val → List Val)
    (hf : fmts ≠ []) (hc : counts ≠ [])
    (hpos : ∀ f ∈ fmts, 0 < f.slot_duration) (hcnt : ∀ c ∈ counts, 1 ≤ c) :
    ∀ (k i : ℕ) (beginAt : ℚ) (blocks : List GenBlock) (force : Bool)
      (retry : ℕ), loopMeasure fmts channelEnd beginAt ≤ k → retry ≤ 1 →
      ∃ (fuel : ℕ) (res : SetBlocksResult),
        set_blocks_go fmts counts availProps channelEnd picks sel fuel i
          beginAt blocks force retry = some res := by
  have hm := minStep_pos hf hpos
  intro k
  induction k with
  | zero =>
    intro i beginAt blocks force retry hM hretry
    have htop : loopBound channelEnd ≤ beginAt :=
      loopMeasure_zero (Nat.le_zero.mp hM) hm
    have hgen : ∀ (j : ℕ) (fo : Bool),
        generate_block fmts counts channelEnd beginAt fo (picks j)
          (select_block_criteria availProps (chosenFormat fmts fo (picks j).1)
            (sel j)) = none :=
      fun j fo => generate_block_none_at_top fo (picks j) _ hf hc hpos hcnt htop
    cases hr : retry with
    | zero =>
      refine ⟨1 + 1, ⟨blocks, true, 2⟩, ?_⟩
      rw [set_blocks_go_fail (hgen i force), if_neg (by omega),
        set_blocks_go_fail (hgen (i + 1) true), if_pos (by omega)]
    | succ m =>
      have hm0 : m = 0 := by omega
      subst hm0
      refine ⟨0 + 1, ⟨blocks, true, 2⟩, ?_⟩
      rw [set_blocks_go_fail (hgen i force), if_pos (by omega)]
  | succ k ih =>
    intro i beginAt blocks force retry hM hretry
    cases hgen : generate_block fmts counts channelEnd beginAt force (picks i)
        (select_block_criteria availProps (chosenFormat fmts force (picks i).1)
          (sel i)) with
    | some b =>
      have hstep := generate_block_some_step hgen hf hc hpos hcnt
      have hM' : loopMeasure fmts channelEnd b.endAt ≤ k :=
        loopMeasure_step hm hstep hM
      obtain ⟨fuel, res, hres⟩ :=
        ih (i + 1) b.endAt (blocks ++ [b]) force 0 hM' (by omega)
      exact ⟨fuel + 1, res, by rw [set_blocks_go_ok hgen]; exact hres⟩
    | none =>
      cases hr : retry with
      | zero =>
        cases hgen2 : generate_block fmts counts channelEnd beginAt true
            (picks (i + 1))
            (select_block_criteria availProps
              (chosenFormat fmts true (picks (i + 1)).1) (sel (i + 1))) with
        | some b2 =>
          have hstep := generate_block_some_step hgen2 hf hc hpos hcnt
          have hM' : loopMeasure fmts channelEnd b2.endAt ≤ k :=
            loopMeasure_step hm hstep hM
          obtain ⟨fuel, res, hres⟩ :=
            ih (i + 2) b2.endAt (blocks ++ [b2]) true 0 hM' (by omega)
          refine ⟨fuel + 1 + 1, res, ?_⟩
          rw [set_blocks_go_fail hgen, if_neg (by omega),
            set_blocks_go_ok hgen2]
          exact hres
        | none =>
          refine ⟨0 + 1 + 1, ⟨blocks, true, 2⟩, ?_⟩
          rw [set_blocks_go_fail hgen, if_neg (by omega),
            set_blocks_go_fail hgen2, if_pos (by omega)]
      | succ m =>
        have hm0 : m = 0 := by omega
        subst hm0
        refine ⟨0 + 1, ⟨blocks, true, 2⟩, ?_⟩
        rw [set_blocks_go_fail hgen, if_pos (by omega)]

/-- C5 (corrected): for every channel configuration whose
`available_slot_format` and `available_slot_count` pools are non-empty,
whose slot durations are positive AND whose slot counts are all at least
1, the `set_blocks` loop terminates (some fuel makes the embedded loop
reach its own `break`), and it exits exactly through the retry rule: the
final retry counter is 2 (> 1) and `force_minimum` is `True` — two
consecutive placement failures while in forced-minimum mode.  The
original claim omits the slot-count condition and is refuted by
`claim_C5_counterexample`: a pool containing the slot count 0 produces
zero-length blocks forever and the loop never terminates. -/
theorem claim_C5 (channel : GenChannel)
    (availProps : List (CategoryCriteria × List Val))
    (picks : ℕ → ℕ × ℕ) (sel : ℕ → CategoryCriteria → List Val → List Val)
    (hf : channel.available_slot_format ≠ [])
    (hc : channel.available_slot_count ≠ [])
    (hpos : ∀ f ∈ channel.available_slot_format, 0 < f.slot_duration)
    (hcnt : ∀ c ∈ channel.available_slot_count, 1 ≤ c) :
    ∃ (fuel : ℕ) (res : SetBlocksResult),
      set_blocks channel availProps picks sel fuel = some res ∧
      res.retry = 2 ∧ res.force_minimum = true := by
  obtain ⟨fuel, res, h⟩ := set_blocks_go_term channel.available_slot_format
    channel.available_slot_count availProps channel.endAt picks sel hf hc hpos
    hcnt (loopMeasure channel.available_slot_format channel.endAt
      channel.beginAt) 0 channel.beginAt [] false 0 (le_refl _) (by omega)
  have hspec := set_blocks_go_spec channel.available_slot_format
    channel.available_slot_count availProps channel.endAt picks sel
    channel.beginAt hf hc fuel 0 channel.beginAt [] false 0 res h (by omega)
    rfl (fun b hb => absurd hb (List.not_mem_nil b))
  exact ⟨fuel, res, h, hspec.2.1, hspec.2.2⟩

/-- Witness for C5: a concrete admissible configuration (begin 23.5, end
0, one slot format of duration 15 minutes, slot-count pool [1]) on which
the loop provably terminates with retry = 2 and forced-minimum mode on. -/
theorem claim_C5_witness :
    ∃ (fuel : ℕ) (res : SetBlocksResult),
      set_blocks ⟨47 / 2, 0, [⟨12, 13, 15⟩], [1], []⟩ [] (fun _ => (0, 0))
        (fun _ _ vs => vs) fuel = some res ∧
      res.retry = 2 ∧ res.force_minimum = true :=
  claim_C5 ⟨47 / 2, 0, [⟨12, 13, 15⟩], [1], []⟩ [] (fun _ => (0, 0))
    (fun _ _ vs => vs) (by simp) (by simp)
    (by intro f hf
        rw [List.mem_singleton] at hf
        subst hf
        norm_num)
    (by intro c hc
        rw [List.mem_singleton] at hc
        subst hc
        exact le_refl 1)

section
attribute [local semireducible] Rat.add Rat.sub Rat.mul Rat.inv

/-- Counterexample to C5 as stated: the configuration begin 6 / end 4
with slot-format pool `[{22, 26, 30}]` (positive slot duration) and
slot-count pool `[0]` satisfies every hypothesis of the claim, yet
`set_blocks` never reaches the loop's `break`, whatever the fuel: every
iteration places a zero-length block at hour 6 and the cursor never
advances, so the Python loop runs forever. -/
theorem claim_C5_counterexample :
    SetBlocksDiverges ⟨6, 4, [⟨22, 26, 30⟩], [0], []⟩ [] (fun _ => (0, 0))
      (fun _ _ vs => vs) := by
  have hgen : ∀ fo : Bool,
      generate_block [⟨22, 26, 30⟩] [0] 4 6 fo ((0 : ℕ), (0 : ℕ))
        (select_block_criteria [] (chosenFormat [⟨22, 26, 30⟩] fo 0)
          (fun _ vs => vs)) = some ⟨6, 6, 0, ⟨22, 26, 30⟩, [], []⟩ := by
    intro fo
    cases fo <;> rfl
  have hgo : ∀ (fuel i : ℕ) (blocks : List GenBlock) (fo : Bool) (retry : ℕ),
      set_blocks_go [⟨22, 26, 30⟩] [0] [] 4 (fun _ => ((0 : ℕ), (0 : ℕ)))
        (fun _ _ vs => vs) fuel i 6 blocks fo retry = none := by
    intro fuel
    induction fuel with
    | zero => intro i blocks fo retry; rfl
    | succ n ih =>
      intro i blocks fo retry
      rw [set_blocks_go_succ]
      rw [hgen fo]
      exact ih (i + 1) (blocks ++ [⟨6, 6, 0, ⟨22, 26, 30⟩, [], []⟩]) fo 0
  intro fuel
  exact hgo fuel 0 [] false 0

end

/-! ## The schedule-filling stage only rewrites `shows` -/

theorem obind_some_eq {α β : Type} (a : α) (f : α → Option β) :
    (some a >>= f) = f a := rfl

theorem obind_none_eq {α β : Type} (f : α → Option β) :
    ((none : Option α) >>= f) = none := rfl

theorem opure_eq {α : Type} (a : α) : (pure a : Option α) = some a := rfl

theorem Option_mapM_forall2 {α β : Type} {f : α → Option β} :
    ∀ {l : List α} {r : List β}, l.mapM f = some r →
      List.Forall₂ (fun x y => f x = some y) l r := by
  intro l
  induction l with
  | nil =>
    intro r hr
    rw [List.mapM_nil, opure_eq] at hr
    cases hr
    exact List.Forall₂.nil
  | cons x xs ih =>
    intro r hr
    rw [List.mapM_cons] at hr
    cases hf : f x with
    | none => rw [hf, obind_none_eq] at hr; cases hr
    | some y =>
      rw [hf, obind_some_eq] at hr
      cases hm : xs.mapM f with
      | none => rw [hm, obind_none_eq] at hr; cases hr
      | some r0 =>
        rw [hm, obind_some_eq, opure_eq] at hr
        cases hr
        exact List.Forall₂.cons hf (ih hm)

theorem forall2_frame_map {l r : List GenBlock}
    (h : List.Forall₂ (fun x y => blockFrame y = blockFrame x) l r) :
    r.map blockFrame = l.map blockFrame := by
  induction h with
  | nil => rfl
  | cons h1 h2 ih => rw [List.map_cons, List.map_cons, h1, ih]

theorem enumFrom_curate_frame (shuffles : ℕ → List ShowItem → List ShowItem) :
    ∀ (l : List GenBlock) (n : ℕ),
      (((List.enumFrom n l).map fun bi =>
        { bi.2 with shows := (shuffles bi.1 bi.2.shows).take 10 }).map blockFrame) =
      l.map blockFrame := by
  intro l
  induction l with
  | nil => intro n; rfl
  | cons x xs ih =>
    intro n
    rw [show List.enumFrom n (x :: xs) = (n, x) :: List.enumFrom (n + 1) xs
      from rfl, List.map_cons, List.map_cons, List.map_cons]
    exact congrArg₂ List.cons rfl (ih (n + 1))

theorem curate_channel_frame (shuffles : ℕ → List ShowItem → List ShowItem)
    (l : List GenBlock) :
    (curate_channel shuffles l).map blockFrame = l.map blockFrame := by
  unfold curate_channel
  exact enumFrom_curate_frame shuffles l 0

theorem generate_schedules_frame {show_list : List ShowItem}
    {shuffles : ℕ → List ShowItem → List ShowItem} {ch ch2 : GenChannel}
    (h : generate_schedules show_list shuffles ch = some ch2) :
    ch2.beginAt = ch.beginAt ∧ ch2.endAt = ch.endAt ∧
    ch2.blocks.map blockFrame = ch.blocks.map blockFrame := by
  unfold generate_schedules at h
  cases hm : ch.blocks.mapM (fun block => do
      let slot := block.slot_format
      let all_criteria : List Criteria :=
        { category := CategoryCriteria.duration,
          values := [Val.n slot.show_min_duration, Val.n slot.show_max_duration],
          forbidden := false } :: block.criteria
      let matching_shows ← get_matching_shows show_list all_criteria
      pure { block with shows := matching_shows }) with
  | none => rw [hm, obind_none_eq] at h; cases h
  | some blocks2 =>
    rw [hm, obind_some_eq, opure_eq] at h
    cases h
    refine ⟨rfl, rfl, ?_⟩
    show (curate_channel shuffles blocks2).map blockFrame = _
    rw [curate_channel_frame]
    apply forall2_frame_map
    refine List.Forall₂.imp ?_ (Option_mapM_forall2 hm)
    intro x y hxy
    have hxy2 : (get_matching_shows show_list
        ({ category := CategoryCriteria.duration,
           values := [Val.n x.slot_format.show_min_duration,
                      Val.n x.slot_format.show_max_duration],
           forbidden := false } :: x.criteria) >>=
        fun ms => (pure { x with shows := ms } : Option GenBlock)) = some y := hxy
    cases hg : get_matching_shows show_list
        ({ category := CategoryCriteria.duration,
           values := [Val.n x.slot_format.show_min_duration,
                      Val.n x.slot_format.show_max_duration],
           forbidden := false } :: x.criteria) with
    | none => rw [hg, obind_none_eq] at hxy2; cases hxy2
    | some ms =>
      rw [hg, obind_some_eq, opure_eq] at hxy2
      cases hxy2
      rfl

/-! ## Chains of generated blocks: sortedness and contiguity -/

theorem chain_lb :
    ∀ {l : List GenBlock} {b0 cur : ℚ}, ChainFrom b0 l cur →
      (∀ b ∈ l, b.beginAt ≤ b.endAt) → ∀ y ∈ l, b0 ≤ y.beginAt := by
  intro l
  induction l with
  | nil => intro b0 cur h hle y hy; cases hy
  | cons x xs ih =>
    intro b0 cur h hle y hy
    obtain ⟨hx, hrest⟩ := h
    rcases List.mem_cons.mp hy with rfl | hy2
    · exact le_of_eq hx.symm
    · calc b0 = y.beginAt + (b0 - y.beginAt) := by ring
        _ ≤ _ := by
          have h1 := ih hrest (fun b hb => hle b (List.mem_cons_of_mem _ hb)) y hy2
          have h2 := hle x (List.mem_cons_self _ _)
          linarith

theorem chain_pairwise_le :
    ∀ {l : List GenBlock} {b0 cur : ℚ}, ChainFrom b0 l cur →
      (∀ b ∈ l, b.beginAt ≤ b.endAt) →
      List.Pairwise (fun a b => a.beginAt ≤ b.beginAt) l := by
  intro l
  induction l with
  | nil => intro b0 cur h hle; exact List.Pairwise.nil
  | cons x xs ih =>
    intro b0 cur h hle
    obtain ⟨hx, hrest⟩ := h
    refine List.Pairwise.cons ?_ (ih hrest fun b hb => hle b (List.mem_cons_of_mem _ hb))
    intro y hy
    have h1 := chain_lb hrest (fun b hb => hle b (List.mem_cons_of_mem _ hb)) y hy
    have h2 := hle x (List.mem_cons_self _ _)
    linarith

theorem chain_zip_eq :
    ∀ {l : List GenBlock} {b0 cur : ℚ}, ChainFrom b0 l cur →
      ∀ p ∈ (l.map fun b => b.endAt).zip ((l.map fun b => b.beginAt).drop 1),
        p.1 = p.2 := by
  intro l
  induction l with
  | nil => intro b0 cur h p hp; cases hp
  | cons x xs ih =>
    intro b0 cur h p hp
    obtain ⟨-, hrest⟩ := h
    cases xs with
    | nil => cases hp
    | cons y ys =>
      obtain ⟨hy, hrest2⟩ := hrest
      rw [show ((x :: y :: ys).map fun b => b.endAt).zip
          (((x :: y :: ys).map fun b => b.beginAt).drop 1) =
          (x.endAt, y.beginAt) ::
            ((y :: ys).map fun b => b.endAt).zip
              (((y :: ys).map fun b => b.beginAt).drop 1) from rfl] at hp
      rcases List.mem_cons.mp hp with rfl | hp2
      · exact hy.symm
      · exact ih ⟨hy, hrest2⟩ p hp2

theorem chain_of_frame :
    ∀ {l m : List GenBlock} {b0 cur : ℚ},
      l.map blockFrame = m.map blockFrame → ChainFrom b0 l cur →
      ChainFrom b0 m cur := by
  intro l
  induction l with
  | nil =>
    intro m b0 cur hmap h
    cases m with
    | nil => exact h
    | cons y ys => cases hmap
  | cons x xs ih =>
    intro m b0 cur hmap h
    cases m with
    | nil => cases hmap
    | cons y ys =>
      obtain ⟨hx, hrest⟩ := h
      rw [List.map_cons, List.map_cons, List.cons.injEq] at hmap
      obtain ⟨hframe, hmaps⟩ := hmap
      have hb : x.beginAt = y.beginAt := congrArg (fun p => p.1) hframe
      have he : x.endAt = y.endAt := congrArg (fun p => p.2.1) hframe
      exact ⟨hb ▸ hx, he ▸ ih hmaps hrest⟩

/-! ## The validator sort is the identity on begin-sorted block lists -/

theorem insertKeyed_append (x : ℚ × PyVal) :
    ∀ (l : List (ℚ × PyVal)), (∀ y ∈ l, y.1 ≤ x.1) →
      insertKeyed x l = l ++ [x] := by
  intro l
  induction l with
  | nil => intro h; rfl
  | cons z zs ih =>
    intro h
    unfold insertKeyed
    rw [if_pos (h z (List.mem_cons_self _ _)),
      ih fun y hy => h y (List.mem_cons_of_mem _ hy)]
    rfl

theorem foldl_insertKeyed_sorted :
    ∀ (l acc : List (ℚ × PyVal)),
      (∀ y ∈ acc, ∀ z ∈ l, y.1 ≤ z.1) →
      List.Pairwise (fun a b => a.1 ≤ b.1) l →
      l.foldl (fun a x => insertKeyed x a) acc = acc ++ l := by
  intro l
  induction l with
  | nil => intro acc h hp; simp
  | cons x xs ih =>
    intro acc h hp
    rw [List.foldl_cons,
      insertKeyed_append x acc fun y hy => h y hy x (List.mem_cons_self _ _),
      ih (acc ++ [x]) ?hya (List.pairwise_cons.mp hp).2]
    · simp
    case hya =>
      intro y hy z hz
      rcases List.mem_append.mp hy with h2 | h2
      · exact h y h2 z (List.mem_cons_of_mem _ hz)
      · rcases List.mem_singleton.mp h2 with rfl
        exact (List.pairwise_cons.mp hp).1 z hz

theorem sortKeyed_sorted {l : List (ℚ × PyVal)}
    (h : List.Pairwise (fun a b => a.1 ≤ b.1) l) : sortKeyed l = l := by
  unfold sortKeyed
  rw [foldl_insertKeyed_sorted l [] (fun y hy => absurd hy (List.not_mem_nil y)) h]
  rfl

theorem encodeBlock_keyed (l : List GenBlock) :
    (l.map encodeBlock).mapM (fun b => do
      let k ← pySub? b "begin"
      let kq ← pyFloat? k
      pure (kq, b) : PyVal → Except Unit (ℚ × PyVal)) =
      Except.ok (l.map fun b => (b.beginAt, encodeBlock b)) := by
  induction l with
  | nil => rfl
  | cons x xs ih =>
    rw [List.map_cons, List.mapM_cons,
      show (do
        let k ← pySub? (encodeBlock x) "begin"
        let kq ← pyFloat? k
        pure (kq, encodeBlock x) : Except Unit (ℚ × PyVal)) =
        Except.ok (x.beginAt, encodeBlock x) from rfl, bind_ok_eq, ih,
      bind_ok_eq, List.map_cons]
    rfl

theorem sortBlocks?_sorted_encode {l : List GenBlock}
    (h : List.Pairwise (fun a b => a.beginAt ≤ b.beginAt) l) :
    sortBlocks? (l.map encodeBlock) = Except.ok (l.map encodeBlock) := by
  unfold sortBlocks?
  rw [encodeBlock_keyed, bind_ok_eq,
    sortKeyed_sorted (List.pairwise_map.mpr h), List.map_map]
  rfl

/-! ## The temporal section on a generated (contiguous, sorted) chain -/

theorem encodeBlock_begins_mapM (l : List GenBlock) :
    (l.map encodeBlock).mapM (fun b => do pyFloat? (← pySub? b "begin")) =
      Except.ok (l.map fun b => b.beginAt) := by
  induction l with
  | nil => rfl
  | cons x xs ih =>
    rw [List.map_cons, List.mapM_cons,
      show (do pyFloat? (← pySub? (encodeBlock x) "begin") :
        Except Unit ℚ) = Except.ok x.beginAt from rfl, bind_ok_eq, ih,
      bind_ok_eq, List.map_cons]
    rfl

theorem encodeBlock_ends_mapM (l : List GenBlock) :
    (l.map encodeBlock).mapM (fun b => do pyFloat? (← pySub? b "end")) =
      Except.ok (l.map fun b => b.endAt) := by
  induction l with
  | nil => rfl
  | cons x xs ih =>
    rw [List.map_cons, List.mapM_cons,
      show (do pyFloat? (← pySub? (encodeBlock x) "end") :
        Except Unit ℚ) = Except.ok x.endAt from rfl, bind_ok_eq, ih,
      bind_ok_eq, List.map_cons]
    rfl

theorem almost_equal_self (q : ℚ) : almost_equal q q = true := by
  unfold almost_equal
  rw [sub_self, abs_zero, decide_eq_true_eq]
  norm_num [tol]

theorem pairErrs_nil (ch : ℕ) :
    ∀ (i : ℕ) (l : List (ℚ × ℚ)), (∀ p ∈ l, p.1 = p.2) →
      pairErrs ch i l = [] := by
  intro i l
  induction l generalizing i with
  | nil => intro h; rfl
  | cons p rest ih =>
    intro h
    obtain ⟨e, b⟩ := p
    have hpe : e = b := h (e, b) (List.mem_cons_self _ _)
    subst hpe
    unfold pairErrs
    rw [if_neg ?hno, almost_equal_self,
      ih (i + 1) fun q hq => h q (List.mem_cons_of_mem _ hq)]
    · rfl
    case hno =>
      intro habs
      have h0 : (0 : ℚ) < tol := by norm_num [tol]
      linarith

theorem temporalErrs_generated {l : List GenBlock} {cb cur : ℚ} (idx : ℕ)
    (ce : ℚ) (hne : l ≠ []) (hchain : ChainFrom cb l cur) :
    ∃ r, temporalErrs idx cb ce (l.map encodeBlock) = Except.ok r ∧
      ∀ e ∈ r, goodKind e = true := by
  obtain ⟨lb, hlb⟩ : ∃ lb, l.getLast? = some lb := by
    cases hgl : l.getLast? with
    | none => exact absurd (List.getLast?_eq_none_iff.mp hgl) hne
    | some lb => exact ⟨lb, rfl⟩
  have hglEnc : (l.map encodeBlock).getLast? = some (encodeBlock lb) := by
    rw [List.getLast?_map, hlb]
    rfl
  have hfirst : ∃ x xs, l = x :: xs ∧ x.beginAt = cb := by
    cases l with
    | nil => exact absurd rfl hne
    | cons x xs => exact ⟨x, xs, rfl, hchain.1⟩
  obtain ⟨x, xs, rfl, hxcb⟩ := hfirst
  refine ⟨(if almost_equal lb.endAt ce then []
      else [VErr.lastEndMismatch idx ce lb.endAt]) ++
    ((((x :: xs).map fun b => b.beginAt).zip
        ((x :: xs).map fun b => b.endAt)).enum.flatMap fun jp =>
      if jp.2.1 < cb - tol ∨ jp.2.2 > ce + tol then
        [VErr.blockOutOfRange idx jp.1]
      else []), ?_, ?_⟩
  · unfold temporalErrs
    rw [encodeBlock_begins_mapM, bind_ok_eq, hglEnc,
      show ((some (encodeBlock lb)).getD PyVal.null) = encodeBlock lb from rfl,
      show pySub? (encodeBlock lb) "end" = Except.ok (.float lb.endAt) from rfl,
      bind_ok_eq,
      show pyFloat? (.float lb.endAt) = Except.ok lb.endAt from rfl,
      bind_ok_eq, encodeBlock_ends_mapM]
    simp only [bind_ok_eq]
    rw [show ((x :: xs).map fun b => b.beginAt).head? = some x.beginAt from rfl]
    show Except.ok ((if almost_equal x.beginAt cb then []
        else [VErr.firstBeginMismatch idx cb x.beginAt]) ++ _ ++
      pairErrs idx 0 (((x :: xs).map fun b => b.endAt).zip
        (((x :: xs).map fun b => b.beginAt).drop 1)) ++ _) = _
    rw [hxcb, almost_equal_self,
      pairErrs_nil idx 0 _ (chain_zip_eq hchain)]
    simp
  · intro e he
    rcases List.mem_append.mp he with h2 | h2
    · by_cases hle : almost_equal lb.endAt ce = true
      · rw [if_pos hle] at h2
        cases h2
      · rw [if_neg hle] at h2
        rcases List.mem_singleton.mp h2 with rfl
        rfl
    · obtain ⟨jp, -, hjp⟩ := List.mem_flatMap.mp h2
      by_cases hc : jp.2.1 < cb - tol ∨ jp.2.2 > ce + tol
      · rw [if_pos hc] at hjp
        rcases List.mem_singleton.mp hjp with rfl
        rfl
      · rw [if_neg hc] at hjp
        cases hjp

/-! ## Every criterion-level error kind is benign for claim C1 -/

theorem flatten_mapM_good {α : Type} {f : α → Except Unit (List VErr)}
    {vs : List α} {ls : List (List VErr)} (hm : vs.mapM f = Except.ok ls)
    (hgood : ∀ v ∈ vs, ∀ l, f v = Except.ok l → ∀ e ∈ l, goodKind e = true) :
    ∀ e ∈ ls.flatten, goodKind e = true := by
  intro e he
  obtain ⟨l, hl, hel⟩ := List.mem_flatten.mp he
  obtain ⟨v, hv, hfv⟩ := mapM_ok_mem hm l hl
  exact hgood v hv l hfv e hel

theorem critValuesErrs_good {cat : PyVal} {vs : List PyVal} {ch j k : ℕ}
    {r : List VErr} (h : critValuesErrs cat vs ch j k = Except.ok r) :
    ∀ e ∈ r, goodKind e = true := by
  unfold critValuesErrs at h
  by_cases hg : pyEq cat (.str "genre") = true
  · rw [if_pos hg] at h
    cases hm : vs.mapM (fun v => do
        let known ← pyInStrSet? v GENRE_KEYS
        pure (if known then ([] : List VErr) else [.critGenreUnknown ch j k])) with
    | error u => rw [hm, bind_err_eq] at h; cases h
    | ok ls =>
      rw [hm, bind_ok_eq, pure_ok_eq] at h
      cases h
      refine flatten_mapM_good hm ?_
      intro v hv l hfv e hel
      cases hk : pyInStrSet? v GENRE_KEYS with
      | error u => rw [hk, bind_err_eq] at hfv; cases hfv
      | ok known =>
        rw [hk, bind_ok_eq, pure_ok_eq] at hfv
        cases hfv
        cases known with
        | true => cases hel
        | false => rcases List.mem_singleton.mp hel with rfl; rfl
  · rw [if_neg hg] at h
    by_cases ht : pyEq cat (.str "type") = true
    · rw [if_pos ht] at h
      cases hm : vs.mapM (fun v => do
          let tOk ← pyInStrSet? v ALLOWED_TYPES
          pure (if tOk then ([] : List VErr) else [.critTypeInvalid ch j k])) with
      | error u => rw [hm, bind_err_eq] at h; cases h
      | ok ls =>
        rw [hm, bind_ok_eq, pure_ok_eq] at h
        cases h
        refine flatten_mapM_good hm ?_
        intro v hv l hfv e hel
        cases hk : pyInStrSet? v ALLOWED_TYPES with
        | error u => rw [hk, bind_err_eq] at hfv; cases hfv
        | ok tOk =>
          rw [hk, bind_ok_eq, pure_ok_eq] at hfv
          cases hfv
          cases tOk with
          | true => cases hel
          | false => rcases List.mem_singleton.mp hel with rfl; rfl
    · rw [if_neg ht] at h
      by_cases hl : pyEq cat (.str "language") = true
      · rw [if_pos hl, pure_ok_eq] at h
        cases h
        intro e he
        obtain ⟨v, -, hv⟩ := List.mem_flatMap.mp he
        by_cases hs : isStrV v = true
        · rw [if_pos hs] at hv; cases hv
        · rw [if_neg hs] at hv
          rcases List.mem_singleton.mp hv with rfl
          rfl
      · rw [if_neg hl] at h
        by_cases hd : pyEq cat (.str "duration") = true
        · rw [if_pos hd, pure_ok_eq] at h
          cases h
          intro e he
          obtain ⟨v, -, hv⟩ := List.mem_flatMap.mp he
          by_cases hn : (!isNumV v) = true
          · rw [if_pos hn] at hv
            rcases List.mem_singleton.mp hv with rfl
            rfl
          · rw [if_neg hn] at hv
            by_cases hp : (pyNum? v).getD 0 ≤ 0
            · rw [if_pos hp] at hv
              rcases List.mem_singleton.mp hv with rfl
              rfl
            · rw [if_neg hp] at hv
              cases hv
        · rw [if_neg hd, pure_ok_eq] at h
          cases h
          intro e he
          cases he

theorem critValuesStage_good {cat values : PyVal} {ch j k : ℕ} {r : List VErr}
    (h : critValuesStage cat values ch j k = Except.ok r) :
    ∀ e ∈ r, goodKind e = true := by
  unfold critValuesStage at h
  cases values with
  | list vs =>
    have h2 : (if vs.isEmpty = true then
        (pure [VErr.critValuesEmptyOrNotList ch j k] : Except Unit (List VErr))
      else critValuesErrs cat vs ch j k) = Except.ok r := h
    by_cases he : vs.isEmpty = true
    · rw [if_pos he, pure_ok_eq] at h2
      cases h2
      intro e he2
      rcases List.mem_singleton.mp he2 with rfl
      rfl
    · rw [if_neg he] at h2
      exact critValuesErrs_good h2
  | null =>
    have h2 : (Except.ok [VErr.critValuesEmptyOrNotList ch j k] :
        Except Unit (List VErr)) = Except.ok r := h
    cases h2
    intro e he
    rcases List.mem_singleton.mp he with rfl
    rfl
  | bool x =>
    have h2 : (Except.ok [VErr.critValuesEmptyOrNotList ch j k] :
        Except Unit (List VErr)) = Except.ok r := h
    cases h2
    intro e he
    rcases List.mem_singleton.mp he with rfl
    rfl
  | int n =>
    have h2 : (Except.ok [VErr.critValuesEmptyOrNotList ch j k] :
        Except Unit (List VErr)) = Except.ok r := h
    cases h2
    intro e he
    rcases List.mem_singleton.mp he with rfl
    rfl
  | float q =>
    have h2 : (Except.ok [VErr.critValuesEmptyOrNotList ch j k] :
        Except Unit (List VErr)) = Except.ok r := h
    cases h2
    intro e he
    rcases List.mem_singleton.mp he with rfl
    rfl
  | str s =>
    have h2 : (Except.ok [VErr.critValuesEmptyOrNotList ch j k] :
        Except Unit (List VErr)) = Except.ok r := h
    cases h2
    intro e he
    rcases List.mem_singleton.mp he with rfl
    rfl
  | dict kvs =>
    have h2 : (Except.ok [VErr.critValuesEmptyOrNotList ch j k] :
        Except Unit (List VErr)) = Except.ok r := h
    cases h2
    intro e he
    rcases List.mem_singleton.mp he with rfl
    rfl

theorem validate_criterion_good {crit : PyVal} {ch j k : ℕ} {r : List VErr}
    (h : validate_criterion crit ch j k = Except.ok r) :
    ∀ e ∈ r, goodKind e = true := by
  unfold validate_criterion at h
  cases h1 : pyGet? crit "category" .null with
  | error u => rw [h1, bind_err_eq] at h; cases h
  | ok cat =>
    rw [h1, bind_ok_eq] at h
    cases h2 : pyInStrSet? cat ALLOWED_CRITERIA_CATEGORIES with
    | error u => rw [h2, bind_err_eq] at h; cases h
    | ok catOk =>
      rw [h2, bind_ok_eq] at h
      cases h3 : pyGet? crit "forbidden" .null with
      | error u => rw [h3, bind_err_eq] at h; cases h
      | ok forb =>
        rw [h3, bind_ok_eq] at h
        cases h4 : pyGet? crit "values" .null with
        | error u => rw [h4, bind_err_eq] at h; cases h
        | ok values =>
          rw [h4, bind_ok_eq] at h
          cases h5 : critValuesStage cat values ch j k with
          | error u => rw [h5, bind_err_eq] at h; cases h
          | ok r3 =>
            rw [h5, bind_ok_eq, pure_ok_eq] at h
            cases h
            intro e he
            rcases List.mem_append.mp he with he2 | he2
            · rcases List.mem_append.mp he2 with he3 | he3
              · cases catOk with
                | true => cases he3
                | false => rcases List.mem_singleton.mp he3 with rfl; rfl
              · by_cases hb : isBoolV forb = true
                · rw [if_pos hb] at he3; cases he3
                · rw [if_neg hb] at he3
                  rcases List.mem_singleton.mp he3 with rfl
                  rfl
            · exact critValuesStage_good h5 e he2

theorem blockCriteriaErrs_good {criteria : PyVal} {ch j : ℕ} {r : List VErr}
    (h : blockCriteriaErrs criteria ch j = Except.ok r) :
    ∀ e ∈ r, goodKind e = true := by
  unfold blockCriteriaErrs at h
  cases criteria with
  | list cs =>
    have h2 : (if cs.isEmpty = true then
        (pure [VErr.criteriaEmptyOrNotList ch j] : Except Unit (List VErr))
      else do
        let ls ← cs.enum.mapM fun kc => validate_criterion kc.2 ch j kc.1
        pure ls.flatten) = Except.ok r := h
    by_cases he : cs.isEmpty = true
    · rw [if_pos he, pure_ok_eq] at h2
      cases h2
      intro e he2
      rcases List.mem_singleton.mp he2 with rfl
      rfl
    · rw [if_neg he] at h2
      cases hm : cs.enum.mapM (fun kc => validate_criterion kc.2 ch j kc.1) with
      | error u => rw [hm, bind_err_eq] at h2; cases h2
      | ok ls =>
        rw [hm, bind_ok_eq, pure_ok_eq] at h2
        cases h2
        exact flatten_mapM_good hm fun kc _ l hfv => validate_criterion_good hfv
  | null =>
    have h2 : (Except.ok [VErr.criteriaEmptyOrNotList ch j] :
        Except Unit (List VErr)) = Except.ok r := h
    cases h2
    intro e he
    rcases List.mem_singleton.mp he with rfl
    rfl
  | bool x =>
    have h2 : (Except.ok [VErr.criteriaEmptyOrNotList ch j] :
        Except Unit (List VErr)) = Except.ok r := h
    cases h2
    intro e he
    rcases List.mem_singleton.mp he with rfl
    rfl
  | int n =>
    have h2 : (Except.ok [VErr.criteriaEmptyOrNotList ch j] :
        Except Unit (List VErr)) = Except.ok r := h
    cases h2
    intro e he
    rcases List.mem_singleton.mp he with rfl
    rfl
  | float q =>
    have h2 : (Except.ok [VErr.criteriaEmptyOrNotList ch j] :
        Except Unit (List VErr)) = Except.ok r := h
    cases h2
    intro e he
    rcases List.mem_singleton.mp he with rfl
    rfl
  | str s =>
    have h2 : (Except.ok [VErr.criteriaEmptyOrNotList ch j] :
        Except Unit (List VErr)) = Except.ok r := h
    cases h2
    intro e he
    rcases List.mem_singleton.mp he with rfl
    rfl
  | dict kvs =>
    have h2 : (Except.ok [VErr.criteriaEmptyOrNotList ch j] :
        Except Unit (List VErr)) = Except.ok r := h
    cases h2
    intro e he
    rcases List.mem_singleton.mp he with rfl
    rfl

theorem critOk_encode (c : Criteria) : critOk (encodeCriteria c) = true := by
  show (c.values.map encodeVal).all scalarOk = true
  rw [List.all_eq_true]
  intro v hv
  obtain ⟨w, -, rfl⟩ := List.mem_map.mp hv
  cases w <;> rfl

theorem validate_block_generated {b : GenBlock} (ch j : ℕ)
    (hord : b.beginAt < b.endAt)
    (hdur : b.endAt - b.beginAt =
      b.slot_format.slot_duration * ((b.slot_count : ℤ) : ℚ) / 60) :
    ∃ r, validate_block (encodeBlock b) ch j = Except.ok r ∧
      ∀ e ∈ r, goodKind e = true := by
  have hcrall : (match (PyVal.list (b.criteria.map encodeCriteria)) with
      | PyVal.list cs => cs.all critOk
      | _ => true) = true := by
    show (b.criteria.map encodeCriteria).all critOk = true
    rw [List.all_eq_true]
    intro c hc
    obtain ⟨c0, -, rfl⟩ := List.mem_map.mp hc
    exact critOk_encode c0
  obtain ⟨rC, hrC⟩ := @blockCriteriaErrs_ok
    (.list (b.criteria.map encodeCriteria)) ch j hcrall
  have hrCg := blockCriteriaErrs_good hrC
  have halmost : almost_equal
      (b.slot_format.slot_duration * ((b.slot_count : ℤ) : ℚ) / 60)
      (b.endAt - b.beginAt) = true := by
    rw [hdur]
    exact almost_equal_self _
  have heDur : blockDurationErrs (encodeSlotFormat b.slot_format)
      (Except.ok (b.beginAt, b.endAt)) (.int (b.slot_count : ℤ)) ch j =
      Except.ok [] := by
    rw [show blockDurationErrs (encodeSlotFormat b.slot_format)
        (Except.ok (b.beginAt, b.endAt)) (.int (b.slot_count : ℤ)) ch j =
        pure (if almost_equal
            (b.slot_format.slot_duration * ((b.slot_count : ℤ) : ℚ) / 60)
            (b.endAt - b.beginAt) then ([] : List VErr)
          else [.blockDurationMismatch ch j (b.endAt - b.beginAt)
            (b.slot_format.slot_duration * ((b.slot_count : ℤ) : ℚ) / 60)])
      from rfl, halmost]
    rfl
  refine ⟨([] : List VErr) ++ [] ++
    (if (pyEq (.int (b.slot_count : ℤ)) (.int 1) ||
        pyEq (.int (b.slot_count : ℤ)) (.int 2)) = true then []
      else [.slotCountInvalid ch j]) ++
    (if is_allowed_slot_format
        [("show_min_duration", .float b.slot_format.show_min_duration),
         ("show_max_duration", .float b.slot_format.show_max_duration),
         ("slot_duration", .float b.slot_format.slot_duration)] = true
      then ([] : List VErr) else [.slotFormatInvalid ch j]) ++
    [] ++ rC ++ [], ?_, ?_⟩
  · unfold validate_block
    rw [show missingKeyErrs (encodeBlock b)
        ["criteria", "begin", "end", "slot_count", "slot_format", "shows"]
        (VErr.blkMissingKey ch j) = Except.ok [] from rfl, bind_ok_eq]
    simp only [show beginEnd? (encodeBlock b) = Except.ok (b.beginAt, b.endAt)
      from rfl]
    rw [if_pos hord]
    rw [show pyGet? (encodeBlock b) "slot_count" .null =
        Except.ok (.int (b.slot_count : ℤ)) from rfl, bind_ok_eq]
    rw [show pyGet? (encodeBlock b) "slot_format" (.dict []) =
        Except.ok (encodeSlotFormat b.slot_format) from rfl, bind_ok_eq]
    rw [heDur, bind_ok_eq]
    rw [show pyGet? (encodeBlock b) "criteria" (.list []) =
        Except.ok (.list (b.criteria.map encodeCriteria)) from rfl, bind_ok_eq]
    rw [hrC, bind_ok_eq]
    rw [show showsErrs (encodeBlock b) ch j = Except.ok [] from rfl, bind_ok_eq]
    rfl
  · intro e he
    simp only [List.nil_append, List.append_nil, List.mem_append] at he
    rcases he with (he | he) | he
    · by_cases hc : (pyEq (.int (b.slot_count : ℤ)) (.int 1) ||
          pyEq (.int (b.slot_count : ℤ)) (.int 2)) = true
      · rw [if_pos hc] at he
        cases he
      · rw [if_neg hc] at he
        rcases List.mem_singleton.mp he with rfl
        rfl
    · by_cases hc : is_allowed_slot_format
          [("show_min_duration", .float b.slot_format.show_min_duration),
           ("show_max_duration", .float b.slot_format.show_max_duration),
           ("slot_duration", .float b.slot_format.slot_duration)] = true
      · rw [if_pos hc] at he
        cases he
      · rw [if_neg hc] at he
        rcases List.mem_singleton.mp he with rfl
        rfl
    · exact hrCg e he

/-- C1 (corrected): for every channel configuration with non-empty pools,
positive slot durations and slot counts at least 1, a catalog channel
produced by the full generation pipeline (`set_blocks` building the
blocks, then `generate_schedules` filling the shows) validates without
raising, and the error list contains **no** overlap error, gap error,
first-block boundary mismatch, duration-arithmetic mismatch, block-level
begin/end order or conversion error, sort failure or channel-level
conversion error (`goodKind` is `true` for every reported entry).  The
original claim — only the *last* block's boundary may be flagged — is
refuted by `claim_C1_counterexample`: with the source's hard-coded
channel bounds begin=6/end=4 every generated block is reported
out-of-range (`bloc hors de la plage chaîne`), a temporal-consistency
error on non-last blocks. -/
theorem claim_C1 (channel : GenChannel)
    (availProps : List (CategoryCriteria × List Val))
    (picks : ℕ → ℕ × ℕ) (sel : ℕ → CategoryCriteria → List Val → List Val)
    (show_list : List ShowItem)
    (shuffles : ℕ → List ShowItem → List ShowItem)
    (fuel idx : ℕ) (res : SetBlocksResult) (ch2 : GenChannel)
    (hf : channel.available_slot_format ≠ [])
    (hc : channel.available_slot_count ≠ [])
    (hpos : ∀ f ∈ channel.available_slot_format, 0 < f.slot_duration)
    (hcnt : ∀ c ∈ channel.available_slot_count, 1 ≤ c)
    (hsb : set_blocks channel availProps picks sel fuel = some res)
    (hgs : generate_schedules show_list shuffles
      { channel with blocks := res.blocks } = some ch2) :
    ∃ errs, validate_channel (encodeChannel ch2) idx = Except.ok errs ∧
      ∀ e ∈ errs, goodKind e = true := by
  obtain ⟨⟨cur, hchain, hwf⟩, -, -⟩ := set_blocks_go_spec
    channel.available_slot_format channel.available_slot_count availProps
    channel.endAt picks sel channel.beginAt hf hc fuel 0 channel.beginAt []
    false 0 res hsb (by omega) rfl (fun b hb => absurd hb (List.not_mem_nil b))
  obtain ⟨hb2, -, hblocks2⟩ := generate_schedules_frame hgs
  have hble : ∀ b ∈ res.blocks, b.beginAt < b.endAt := by
    intro b hb
    obtain ⟨hend, hsfm, hscm⟩ := hwf b hb
    have hsd := hpos _ hsfm
    have hsc : (1 : ℚ) ≤ (b.slot_count : ℚ) := by exact_mod_cast hcnt _ hscm
    have hpos2 : 0 < b.slot_format.slot_duration * (b.slot_count : ℚ) / 60 := by
      apply div_pos _ (by norm_num)
      nlinarith
    rw [hend]
    linarith
  have hmem2 : ∀ b2 ∈ ch2.blocks, ∃ b1 ∈ res.blocks,
      blockFrame b1 = blockFrame b2 := by
    intro b2 hb2m
    have hm : blockFrame b2 ∈ ch2.blocks.map blockFrame :=
      List.mem_map_of_mem _ hb2m
    rw [hblocks2] at hm
    obtain ⟨b1, hb1, hfr⟩ := List.mem_map.mp hm
    exact ⟨b1, hb1, hfr⟩
  have hble2 : ∀ b ∈ ch2.blocks, b.beginAt < b.endAt := by
    intro b2 hb2m
    obtain ⟨b1, hb1, hfr⟩ := hmem2 b2 hb2m
    have hbeq : b1.beginAt = b2.beginAt := congrArg (fun p => p.1) hfr
    have heeq : b1.endAt = b2.endAt := congrArg (fun p => p.2.1) hfr
    rw [← hbeq, ← heeq]
    exact hble b1 hb1
  have hdur2 : ∀ b ∈ ch2.blocks, b.endAt - b.beginAt =
      b.slot_format.slot_duration * ((b.slot_count : ℤ) : ℚ) / 60 := by
    intro b2 hb2m
    obtain ⟨b1, hb1, hfr⟩ := hmem2 b2 hb2m
    obtain ⟨hend, -, -⟩ := hwf b1 hb1
    have hbeq : b1.beginAt = b2.beginAt := congrArg (fun p => p.1) hfr
    have heeq : b1.endAt = b2.endAt := congrArg (fun p => p.2.1) hfr
    have hceq : b1.slot_count = b2.slot_count := congrArg (fun p => p.2.2.1) hfr
    have hfeq : b1.slot_format = b2.slot_format := congrArg (fun p => p.2.2.2) hfr
    push_cast
    rw [← hbeq, ← heeq, ← hceq, ← hfeq, hend]
    ring
  have hchain2 : ChainFrom ch2.beginAt ch2.blocks cur := by
    rw [hb2]
    exact chain_of_frame hblocks2.symm hchain
  by_cases hbnil : ch2.blocks = []
  · refine ⟨[VErr.chMissingKey idx "name", VErr.chMissingKey idx "description",
      VErr.chMissingKey idx "fillers"] ++
      (if ch2.beginAt < ch2.endAt then []
       else [VErr.chBeginEndOrder idx ch2.beginAt ch2.endAt]) ++ [] ++
      [VErr.blocksEmptyOrNotList idx], ?_, ?_⟩
    · unfold validate_channel
      rw [show pyGet? (encodeChannel ch2) "name" (.str "?") =
          Except.ok (.str "?") from rfl, bind_ok_eq,
        show missingKeyErrs (encodeChannel ch2)
          ["name", "description", "begin", "end", "fillers", "blocks"]
          (VErr.chMissingKey idx) =
          Except.ok [VErr.chMissingKey idx "name",
            VErr.chMissingKey idx "description",
            VErr.chMissingKey idx "fillers"] from rfl, bind_ok_eq]
      simp only [show beginEnd? (encodeChannel ch2) =
        Except.ok (ch2.beginAt, ch2.endAt) from rfl]
      rw [show pyGet? (encodeChannel ch2) "fillers" (.list []) =
          Except.ok (.list []) from rfl, bind_ok_eq,
        show fillersErrs (.list []) idx = Except.ok [] from rfl, bind_ok_eq,
        show pyGet? (encodeChannel ch2) "blocks" (.list []) =
          Except.ok (.list (ch2.blocks.map encodeBlock)) from rfl, bind_ok_eq,
        hbnil]
      rfl
    · intro e he
      simp only [List.append_nil, List.nil_append, List.mem_append,
        List.mem_cons, List.mem_singleton] at he
      rcases he with ((rfl | rfl | rfl | he0) | he) | rfl | he1
      · rfl
      · rfl
      · rfl
      · cases he0
      · by_cases hbe : ch2.beginAt < ch2.endAt
        · rw [if_pos hbe] at he
          cases he
        · rw [if_neg hbe] at he
          rcases List.mem_singleton.mp he with rfl
          rfl
      · rfl
      · cases he1
  · have hempty : (ch2.blocks.map encodeBlock).isEmpty = false := by
      cases hcb : ch2.blocks with
      | nil => exact absurd hcb hbnil
      | cons x xs => rfl
    have hpl : List.Pairwise (fun a b => a.beginAt ≤ b.beginAt) ch2.blocks :=
      chain_pairwise_le hchain2 fun b hb => le_of_lt (hble2 b hb)
    have hsort := sortBlocks?_sorted_encode hpl
    obtain ⟨rT, hrT, hrTg⟩ :=
      temporalErrs_generated idx ch2.endAt hbnil hchain2
    obtain ⟨rb, hrb⟩ := mapM_ok_exists
      (l := (ch2.blocks.map encodeBlock).enum)
      (f := fun jb => validate_block jb.2 idx jb.1)
      (fun jb hjb => by
        have hmem : jb.2 ∈ ch2.blocks.map encodeBlock :=
          List.get?_mem (List.mem_enum_iff_get?.mp hjb)
        obtain ⟨b2, hb2m, hjb2⟩ := List.mem_map.mp hmem
        obtain ⟨r, hr, -⟩ :=
          validate_block_generated idx jb.1 (hble2 b2 hb2m) (hdur2 b2 hb2m)
        rw [hjb2] at hr
        exact ⟨r, hr⟩)
    have hrbg : ∀ e ∈ rb.flatten, goodKind e = true := by
      refine flatten_mapM_good hrb ?_
      intro jb hjb l hfv e hel
      have hmem : jb.2 ∈ ch2.blocks.map encodeBlock :=
        List.get?_mem (List.mem_enum_iff_get?.mp hjb)
      obtain ⟨b2, hb2m, hjb2⟩ := List.mem_map.mp hmem
      obtain ⟨r, hr, hg⟩ :=
        validate_block_generated idx jb.1 (hble2 b2 hb2m) (hdur2 b2 hb2m)
      rw [hjb2] at hr
      rw [hr] at hfv
      cases hfv
      exact hg e hel
    refine ⟨[VErr.chMissingKey idx "name", VErr.chMissingKey idx "description",
      VErr.chMissingKey idx "fillers"] ++
      (if ch2.beginAt < ch2.endAt then []
       else [VErr.chBeginEndOrder idx ch2.beginAt ch2.endAt]) ++ [] ++
      rT ++ rb.flatten, ?_, ?_⟩
    · unfold validate_channel
      rw [show pyGet? (encodeChannel ch2) "name" (.str "?") =
          Except.ok (.str "?") from rfl, bind_ok_eq,
        show missingKeyErrs (encodeChannel ch2)
          ["name", "description", "begin", "end", "fillers", "blocks"]
          (VErr.chMissingKey idx) =
          Except.ok [VErr.chMissingKey idx "name",
            VErr.chMissingKey idx "description",
            VErr.chMissingKey idx "fillers"] from rfl, bind_ok_eq]
      simp only [show beginEnd? (encodeChannel ch2) =
        Except.ok (ch2.beginAt, ch2.endAt) from rfl]
      rw [show pyGet? (encodeChannel ch2) "fillers" (.list []) =
          Except.ok (.list []) from rfl, bind_ok_eq,
        show fillersErrs (.list []) idx = Except.ok [] from rfl, bind_ok_eq,
        show pyGet? (encodeChannel ch2) "blocks" (.list []) =
          Except.ok (.list (ch2.blocks.map encodeBlock)) from rfl, bind_ok_eq]
      simp only [hempty, Bool.false_eq_true, if_false, hsort]
      unfold temporalStage
      simp only [hrT]
      rw [bind_ok_eq, hrb, bind_ok_eq]
    · intro e he
      simp only [List.append_nil, List.nil_append, List.mem_append,
        List.mem_cons, List.mem_singleton] at he
      rcases he with (((rfl | rfl | rfl | he0) | he) | he) | he
      · rfl
      · rfl
      · rfl
      · cases he0
      · by_cases hbe : ch2.beginAt < ch2.endAt
        · rw [if_pos hbe] at he
          cases he
        · rw [if_neg hbe] at he
          rcases List.mem_singleton.mp he with rfl
          rfl
      · exact hrTg e he
      · exact hrbg e he

section
attribute [local semireducible] Rat.add Rat.sub Rat.mul Rat.inv

set_option maxRecDepth 4000

/-- Counterexample to C1 as stated: running the pipeline with the
source's hard-coded channel bounds (begin 6, end 4;
`ChannelMaker.__init__` sets `channel_begin_at = 6`, `channel_end_at =
4`), the slot-format pool `[{95, 110, 120}]` and slot-count pool `[3]`
produces the blocks [6,12], [12,18], [18,24]; the validator then reports
an out-of-range temporal error for block 0 and block 1 — non-last
blocks, and not a last-block boundary mismatch — so temporal checks do
not pass except at the last block's boundary. -/
theorem claim_C1_counterexample :
    set_blocks ⟨6, 4, [⟨95, 110, 120⟩], [3], []⟩ [] (fun _ => (0, 0))
      (fun _ _ vs => vs) 10 =
      some ⟨[⟨6, 12, 3, ⟨95, 110, 120⟩, [], []⟩,
             ⟨12, 18, 3, ⟨95, 110, 120⟩, [], []⟩,
             ⟨18, 24, 3, ⟨95, 110, 120⟩, [], []⟩], true, 2⟩ ∧
    generate_schedules [] (fun _ l => l)
      ⟨6, 4, [⟨95, 110, 120⟩], [3],
        [⟨6, 12, 3, ⟨95, 110, 120⟩, [], []⟩,
         ⟨12, 18, 3, ⟨95, 110, 120⟩, [], []⟩,
         ⟨18, 24, 3, ⟨95, 110, 120⟩, [], []⟩]⟩ =
      some ⟨6, 4, [⟨95, 110, 120⟩], [3],
        [⟨6, 12, 3, ⟨95, 110, 120⟩, [], []⟩,
         ⟨12, 18, 3, ⟨95, 110, 120⟩, [], []⟩,
         ⟨18, 24, 3, ⟨95, 110, 120⟩, [], []⟩]⟩ ∧
    (match validate_channel (encodeChannel ⟨6, 4, [⟨95, 110, 120⟩], [3],
        [⟨6, 12, 3, ⟨95, 110, 120⟩, [], []⟩,
         ⟨12, 18, 3, ⟨95, 110, 120⟩, [], []⟩,
         ⟨18, 24, 3, ⟨95, 110, 120⟩, [], []⟩]⟩) 0 with
     | .ok errs => errs.contains (.blockOutOfRange 0 0) &&
         errs.contains (.blockOutOfRange 0 1)
     | .error _ => false) = true :=
  ⟨rfl, rfl, rfl⟩

/-- Witness for C1: a concrete admissible run (begin 23.5, end 0, one
slot format of duration 15 minutes, slot counts [1]) on which the
pipeline's two placed blocks validate with only benign error kinds. -/
theorem claim_C1_witness :
    ∃ errs, validate_channel (encodeChannel ⟨47 / 2, 0, [⟨12, 13, 15⟩], [1],
        [⟨47 / 2, 95 / 4, 1, ⟨12, 13, 15⟩, [], []⟩,
         ⟨95 / 4, 24, 1, ⟨12, 13, 15⟩, [], []⟩]⟩) 0 = Except.ok errs ∧
      ∀ e ∈ errs, goodKind e = true :=
  claim_C1 ⟨47 / 2, 0, [⟨12, 13, 15⟩], [1], []⟩ [] (fun _ => (0, 0))
    (fun _ _ vs => vs) [] (fun _ l => l) 10 0
    ⟨[⟨47 / 2, 95 / 4, 1, ⟨12, 13, 15⟩, [], []⟩,
      ⟨95 / 4, 24, 1, ⟨12, 13, 15⟩, [], []⟩], true, 2⟩
    ⟨47 / 2, 0, [⟨12, 13, 15⟩], [1],
      [⟨47 / 2, 95 / 4, 1, ⟨12, 13, 15⟩, [], []⟩,
       ⟨95 / 4, 24, 1, ⟨12, 13, 15⟩, [], []⟩]⟩
    (by simp) (by simp)
    (by intro f hf
        rw [List.mem_singleton] at hf
        subst hf
        norm_num)
    (by intro c hc
        rw [List.mem_singleton] at hc
        subst hc
        exact le_refl 1)
    rfl rfl

end

end PseudoTV
